import Mathlib

/-!
Verification of the MINI conversational-assistant client core.

This file gives a shallow embedding of the conversation-state and
persistence core of the application (src/App.tsx, src/services/storage.ts,
src/types.ts and the backend-gateway helpers), and proves the spec's
testable properties against it.

Conventions of the embedding:
* TypeScript strings are modelled as Lean `String` (or `List Char` where
  character-level reasoning is needed); `undefined`/optional fields as
  `Option`.
* JavaScript numbers that the code only ever uses as integers
  (`Date.now()` timestamps, byte values) are modelled as `Nat`; audio
  sample values and user settings are modelled as `ℚ` (the code performs
  only exact decimal arithmetic on them).
* Asynchronous handlers are modelled as explicit state-transition
  functions: the outcome of an awaited backend call is passed in as an
  `Except` argument, and the handler computes the state reached after the
  corresponding continuation has run.
* Operations that can throw in JavaScript are modelled with `Except`
  (a `.error` result models an exception propagating to the caller).
-/

namespace Maddi

/-- Message roles, from `types.ts` (`role: 'user' | 'model'`). -/
inductive Role where
  | user
  | model
deriving DecidableEq, Repr

/-- A web citation attached to a model message, from `types.ts`
(`GroundingSource`, both fields optional). -/
structure GroundingSource where
  title : Option String
  uri : Option String
deriving DecidableEq, Repr

/-- One conversation turn, from `types.ts` (`Message`). Optional fields are
`Option`; a missing optional field is `none`. -/
structure Message where
  id : String
  role : Role
  text : String
  timestamp : Nat
  audioUrl : Option String
  imageUrl : Option String
  psychAnalysis : Option String
  language : Option String
  groundingSources : Option (List GroundingSource)
deriving DecidableEq, Repr

/-- A message carrying only the four mandatory fields (the shape of the
user message built in `handleSend`). -/
def Message.plain (id : String) (role : Role) (text : String) (timestamp : Nat) : Message :=
  { id := id, role := role, text := text, timestamp := timestamp,
    audioUrl := none, imageUrl := none, psychAnalysis := none,
    language := none, groundingSources := none }

/-- One conversation thread, from `types.ts` (`ChatSession`). -/
structure ChatSession where
  id : String
  title : String
  messages : List Message
  createdAt : Nat
deriving DecidableEq, Repr

/-- Theme enum, from `types.ts` (`theme: 'light' | 'dark'`). -/
inductive Theme where
  | light
  | dark
deriving DecidableEq, Repr

/-- User preference record, from `types.ts` (`UserSettings`). -/
structure UserSettings where
  theme : Theme
  volume : ℚ
  playbackSpeed : ℚ
deriving DecidableEq, Repr

/-! ### JavaScript string trimming

`String.prototype.trim` removes leading and trailing whitespace. We model
the whitespace class by the characters the code can realistically meet
(space, tab, LF, VT, FF, CR, NBSP, BOM); the claims are insensitive to the
exact class because the same class is used on both sides of every
statement. -/

/-- Whitespace class of JavaScript `trim`. -/
def isJsWhitespace (c : Char) : Bool :=
  c = ' ' || c = Char.ofNat 9 || c = Char.ofNat 10 || c = Char.ofNat 11 ||
  c = Char.ofNat 12 || c = Char.ofNat 13 || c = Char.ofNat 160 || c = Char.ofNat 65279

/-- JavaScript `text.trim()` on a character list. -/
def jsTrim (s : List Char) : List Char :=
  ((s.dropWhile isJsWhitespace).reverse.dropWhile isJsWhitespace).reverse

/-- JavaScript `text.trim()` on a `String`. -/
def jsTrimS (s : String) : String := String.mk (jsTrim s.data)

/-! ### Backend gateway data (services/gemini.ts)

`GroundingChunk` is the gateway's citation record: `web?: \x7buri, title\x7d`.
At runtime either subfield may be absent in the JSON the service returns
(the spec's own example has a chunk whose `web` lacks `title`), so both
are modelled as `Option`. -/

/-- The `web` payload of a grounding chunk. -/
structure WebInfo where
  uri : Option String
  title : Option String
deriving DecidableEq, Repr

/-- One grounding chunk returned by the chat backend. -/
structure GroundingChunk where
  web : Option WebInfo
deriving DecidableEq, Repr

/-- A successful chat-completion result: raw reply text plus grounding
chunks (`gemini.getResponse` return value). -/
structure ChatResult where
  text : String
  grounding : List GroundingChunk
deriving DecidableEq, Repr

/-- `App.tsx` lines 177-179: derive the display citations from the raw
grounding chunks.

    result.grounding.filter(chunk => chunk.web)
                    .map(chunk => (\x7btitle: chunk.web?.title, uri: chunk.web?.uri\x7d))
-/
def deriveGroundingSources (chunks : List GroundingChunk) : List GroundingSource :=
  (chunks.filter (fun c => c.web.isSome)).map
    (fun c => { title := Option.bind c.web (fun w => w.title),
                uri := Option.bind c.web (fun w => w.uri) })

/-! ### Persistent store (services/storage.ts)

Each `storageService` operation wraps `localStorage` primitives
(`getItem`/`setItem`/`removeItem`) and `JSON.parse`/`JSON.stringify`.
The primitives can throw (storage disabled, quota exceeded, malformed
JSON), so each primitive interaction is modelled by an `Except String`
outcome passed in as an argument.  The operation's own result is again an
`Except String`: returning `.error` models an exception escaping past the
operation's boundary to its caller. -/

/-- `storageService.saveSessions`: the `setItem` call is wrapped in
`try/catch`, so any primitive failure is swallowed. -/
def saveSessionsSvc (setOutcome : Except String Unit) : Except String Unit :=
  match setOutcome with
  | Except.ok _ => Except.ok ()
  | Except.error _ => Except.ok ()

/-- `storageService.getSessions`: reads the stored string and parses it;
`try/catch` turns any failure into the default `[]`, and an absent value
also yields `[]`. -/
def getSessionsSvc (stored : Except String (Option String))
    (deserialize : String → Except String (List ChatSession)) :
    Except String (List ChatSession) :=
  match stored with
  | Except.error _ => Except.ok []
  | Except.ok none => Except.ok []
  | Except.ok (some s) =>
    match deserialize s with
    | Except.error _ => Except.ok []
    | Except.ok v => Except.ok v

/-- `storageService.saveActiveSessionId`: `setItem` when the id is
present, `removeItem` when it is `null`; both inside `try/catch`. -/
def saveActiveSessionIdSvc (id : Option String)
    (setOutcome removeOutcome : Except String Unit) : Except String Unit :=
  match id with
  | some _ =>
    match setOutcome with
    | Except.ok _ => Except.ok ()
    | Except.error _ => Except.ok ()
  | none =>
    match removeOutcome with
    | Except.ok _ => Except.ok ()
    | Except.error _ => Except.ok ()

/-- `storageService.getActiveSessionId` (storage.ts lines 33-35): the one
operation written WITHOUT a `try/catch` — it returns
`localStorage.getItem(ACTIVE_ID_KEY)` directly, so a primitive failure
propagates to the caller unchanged. -/
def getActiveSessionIdSvc (stored : Except String (Option String)) :
    Except String (Option String) :=
  stored

/-- `storageService.saveSettings`: `setItem` inside `try/catch`. -/
def saveSettingsSvc (setOutcome : Except String Unit) : Except String Unit :=
  match setOutcome with
  | Except.ok _ => Except.ok ()
  | Except.error _ => Except.ok ()

/-- `storageService.getSettings`: like `getSessions` but the
default/absence signal is `null` (modelled `none`). -/
def getSettingsSvc (stored : Except String (Option String))
    (deserialize : String → Except String UserSettings) :
    Except String (Option UserSettings) :=
  match stored with
  | Except.error _ => Except.ok none
  | Except.ok none => Except.ok none
  | Except.ok (some s) =>
    match deserialize s with
    | Except.error _ => Except.ok none
    | Except.ok v => Except.ok (some v)

/-! ### Startup settings (App.tsx) -/

/-- `App.tsx` line 27: the `useState` initial value
`\x7b theme: 'dark', volume: 0.8, playbackSpeed: 1.0 \x7d`. -/
def initialSettings : UserSettings :=
  { theme := Theme.dark, volume := 0.8, playbackSpeed := 1.0 }

/-- `App.tsx` lines 54-58: on startup the saved settings replace the
initial value only when `getSettings` returned something
(`if (savedSettings) setSettings(savedSettings)`). -/
def startupSettings (saved : Option UserSettings) : UserSettings :=
  match saved with
  | some s => s
  | none => initialSettings

/-! ### Audio decoding (services/gemini.ts, `decodeAudioData`)

The payload bytes are viewed through `new Int16Array(data.buffer)` —
little-endian 16-bit signed samples on every JavaScript platform the app
runs on; the constructor throws when the byte length is odd (modelled by
`none`). Each sample is divided by 32768.0 into the channel data of an
`AudioBuffer` created with the given channel count and sample rate
(`ctx.createBuffer(numChannels, frameCount, sampleRate)`); the caller
`handlePlayAudio` uses the defaults `sampleRate = 24000`,
`numChannels = 1`. -/

/-- Reassemble one little-endian signed 16-bit sample from two bytes. -/
def toInt16LE (lo hi : Nat) : Int :=
  let u : Nat := lo % 256 + 256 * (hi % 256)
  if u < 32768 then (u : Int) else (u : Int) - 65536

/-- The `Int16Array` view of the byte payload (consecutive LE pairs). -/
def bytesToInt16 : List Nat → List Int
  | lo :: hi :: rest => toInt16LE lo hi :: bytesToInt16 rest
  | _ => []

/-- The decoded audio buffer: channel layout, sample rate, and the
per-channel normalized sample values. -/
structure AudioData where
  numChannels : Nat
  sampleRate : Nat
  channels : List (List ℚ)
deriving DecidableEq, Repr

/-- `decodeAudioData(data, ctx, sampleRate, numChannels)`. `none` models
the `Int16Array` constructor throwing on an odd byte length. -/
def decodeAudioData (data : List Nat) (sampleRate numChannels : Nat) :
    Option AudioData :=
  if data.length % 2 ≠ 0 then none
  else
    let dataInt16 := bytesToInt16 data
    let frameCount := dataInt16.length / numChannels
    some { numChannels := numChannels, sampleRate := sampleRate,
           channels := (List.range numChannels).map (fun channel =>
             (List.range frameCount).map (fun i =>
               ((dataInt16.getD (i * numChannels + channel) 0 : Int) : ℚ) / 32768)) }

/-! ### Psychological-insight extraction (App.tsx lines 181-188)

The source runs the JavaScript regex

    /\x7b.*"PsychologicalInsight".*?\x7d/gs

over the raw reply: `botText.match(psychRegex)` collects every match into
an array (`match[0]` is the first), and
`botText.replace(psychRegex, "").trim()` deletes every match and trims.

We embed the JavaScript backtracking semantics of this specific pattern.
With the `s` flag, `.` matches every character, so a match attempt at
start index `i` succeeds exactly when `s[i]` is a left brace and there is
an occurrence of the literal `"PsychologicalInsight"` at some `p ≥ i + 1`
followed by a right brace at some `q ≥ p + 22` (the literal is 22
characters long). The engine prefers the leftmost start, then the longest
extent of the greedy `.*` (so the largest such `p`), then the shortest
extent of the lazy `.*?` (so the smallest such `q`); the match spans
`[i, q]`. Because a later start only shrinks the set of admissible `p`,
the leftmost successful start is simply the first left brace of the
search window. -/

/-- Left brace character. -/
def lbrace : Char := Char.ofNat 123

/-- Right brace character. -/
def rbrace : Char := Char.ofNat 125

/-- The literal `"PsychologicalInsight"`, quotes included (22 characters). -/
def psychNeedle : List Char := ("\"PsychologicalInsight\"").data

/-- Does the needle occur in `s` starting at index `p`? -/
def needleAt (s : List Char) (p : Nat) : Bool :=
  decide ((s.drop p).take psychNeedle.length = psychNeedle)

/-- Index of the first element satisfying `pr`, if any. -/
def findIdxAux (pr : Char → Bool) : List Char → Option Nat
  | [] => none
  | c :: rest => if pr c then some 0 else (findIdxAux pr rest).map (fun j => j + 1)

/-- Index of the first occurrence of character `c` in `s` at position
`≥ k`, if any. -/
def idxOfFrom (c : Char) (s : List Char) (k : Nat) : Option Nat :=
  (findIdxAux (fun x => x = c) (s.drop k)).map (fun j => k + j)

/-- A needle occurrence at `p` that can complete a match: it is followed
by a closing brace at distance ≥ the needle length. -/
def viableNeedle (s : List Char) (p : Nat) : Bool :=
  needleAt s p && (idxOfFrom rbrace s (p + psychNeedle.length)).isSome

/-- Scan positions `n-1, n-2, …, 0` for the first (i.e. largest) viable
needle position `≥ lo`. -/
def lastViableAux (s : List Char) (lo : Nat) : Nat → Option Nat
  | 0 => none
  | n + 1 =>
    if lo ≤ n ∧ viableNeedle s n = true then some n else lastViableAux s lo n

/-- The largest viable needle position `≥ lo` (the greedy `.*` chooses
it), if any. A viable position is `< s.length`, so scanning below
`s.length` is exhaustive. -/
def lastViableFrom (s : List Char) (lo : Nat) : Option Nat :=
  lastViableAux s lo s.length

/-- The first regex match at a start position `≥ k`:
`some (i, e)` is the span `[i, e)` of the match. -/
def jsMatchFrom (s : List Char) (k : Nat) : Option (Nat × Nat) :=
  match idxOfFrom lbrace s k with
  | none => none
  | some i =>
    match lastViableFrom s (i + 1) with
    | none => none
    | some p =>
      match idxOfFrom rbrace s (p + psychNeedle.length) with
      | none => none
      | some q => some (i, q + 1)

/-- The global (`g` flag) match list: repeatedly take the next match and
resume searching at its end. Matches are nonempty, so the fuel
`s.length + 1` suffices. -/
def jsMatchesAux (s : List Char) : Nat → Nat → List (Nat × Nat)
  | 0, _ => []
  | fuel + 1, k =>
    match jsMatchFrom s k with
    | none => []
    | some (i, e) => (i, e) :: jsMatchesAux s fuel e

/-- All matches of the psych regex over `s` (what `botText.match` sees
and what `botText.replace` deletes). -/
def jsMatches (s : List Char) : List (Nat × Nat) :=
  jsMatchesAux s (s.length + 1) 0

/-- Delete a list of (ascending, disjoint) spans from `s`, starting the
copy at index `k`: models `String.prototype.replace` with an empty
replacement. -/
def removeSpansFrom (s : List Char) (k : Nat) : List (Nat × Nat) → List Char
  | [] => s.drop k
  | (i, e) :: rest => (s.drop k).take (i - k) ++ removeSpansFrom s e rest

/-- The substring of `s` spanning `[i, e)`. -/
def sliceAt (s : List Char) (i e : Nat) : List Char := (s.drop i).take (e - i)

/-- App.tsx lines 181-188: compute `(cleanedText, psychAnalysis)`.
`psychAnalysis` is the first match (or empty), `cleanedText` is the reply
with every match replaced by the empty string, then trimmed (or the
reply unchanged when there is no match). -/
def extractPsych (botText : List Char) : List Char × List Char :=
  match jsMatches botText with
  | [] => (botText, [])
  | (i, e) :: rest =>
    (jsTrim (removeSpansFrom botText 0 ((i, e) :: rest)), sliceAt botText i e)

/-- `extractPsych` on `String`. -/
def extractPsychS (botText : String) : String × String :=
  let r := extractPsych botText.data
  (String.mk r.1, String.mk r.2)

/-- Declarative statement that the reply text contains a fragment the
psych regex can match: a left brace, a later occurrence of the
`"PsychologicalInsight"` literal, and a closing brace after it. -/
def HasPsychFragment (s : List Char) : Prop :=
  ∃ i p q, s.get? i = some lbrace ∧ i < p ∧ needleAt s p = true ∧
    p + psychNeedle.length ≤ q ∧ s.get? q = some rbrace

/-- Declaratively: a needle occurrence at `p` that a match can complete
(there is a closing brace after the needle). -/
def ViableAt (s : List Char) (p : Nat) : Prop :=
  needleAt s p = true ∧ ∃ q, p + psychNeedle.length ≤ q ∧ s.get? q = some rbrace

/-- Declarative characterization of the span `[i, e)` the JavaScript
regex `/\x7b.*"PsychologicalInsight".*?\x7d/s` matches in `s`: `i` is the
first left brace of the whole string, the greedy `.*` reaches the largest
viable needle position `p > i`, and the lazy `.*?` stops at the first
closing brace `q` of the needle (so `e = q + 1`). -/
def IsPsychMatch (s : List Char) (i e : Nat) : Prop :=
  s.get? i = some lbrace ∧ (∀ j, j < i → s.get? j ≠ some lbrace) ∧
  ∃ p q, i < p ∧ ViableAt s p ∧ (∀ r, i < r → ViableAt s r → r ≤ p) ∧
    p + psychNeedle.length ≤ q ∧ s.get? q = some rbrace ∧
    (∀ x, p + psychNeedle.length ≤ x → x < q → s.get? x ≠ some rbrace) ∧
    e = q + 1

/-- Concrete reply used to instantiate the extraction contract: a reply
that is exactly one psych fragment. -/
def c1WitnessText : List Char :=
  ("\x7b\"PsychologicalInsight\":\"x\"\x7d").data

/-! ### Conversation controller state (App.tsx)

The pieces of React state the core claims speak about. Presentation-only
state (sidebar, greeting, copy feedback, recording flag) is omitted; it
never feeds back into the conversation state. -/

/-- The conversation-relevant application state. -/
structure AppState where
  sessions : List ChatSession
  activeSessionId : Option String
  input : String
  isTyping : Bool
  isGeneratingImage : Bool
  errorMsg : Option String
  settings : UserSettings
deriving DecidableEq, Repr

/-- A backend call failure; `message` models `error?.message`, absent
when the thrown value has no message. -/
structure BackendFailure where
  message : Option String
deriving DecidableEq, Repr

/-- Chat error fallback text (App.tsx line 208). -/
def chatFallbackMsg : String := "Something went wrong. Please check your connection."

/-- Image error fallback text (App.tsx line 277). -/
def imageFallbackMsg : String := "Image generation failed."

/-- `error?.message || fallback`: the fallback is used when the message
is absent or empty (empty strings are falsy in JavaScript). -/
def surfacedError (fallback : String) (e : BackendFailure) : String :=
  match e.message with
  | some m => if m = "" then fallback else m
  | none => fallback

/-- App.tsx lines 160-163: append the user message to the active session,
retitling it with the first 30 characters of `text` when it was empty. -/
def appendUserMsg (sessions : List ChatSession) (aid : String) (m : Message)
    (text : String) : List ChatSession :=
  sessions.map (fun s =>
    if s.id = aid then
      { s with messages := s.messages ++ [m],
               title := if s.messages.length = 0 then text.take 30 else s.title }
    else s)

/-- App.tsx lines 199-202 and 268-271: append a model message to the
active session (used for both the chat reply and the generated image). -/
def appendModelMsg (sessions : List ChatSession) (aid : String) (m : Message) :
    List ChatSession :=
  sessions.map (fun s =>
    if s.id = aid then { s with messages := s.messages ++ [m] } else s)

/-- `textOverride || input` (App.tsx line 149): JavaScript `||` falls
through on the empty string. -/
def sendText (st : AppState) (textOverride : Option String) : String :=
  match textOverride with
  | some t => if t = "" then st.input else t
  | none => st.input

/-- `handleSend` (App.tsx lines 148-212) as a state transition. `now` is
`Date.now()` at the synchronous prefix, `result` the settled outcome of
the awaited `gemini.getResponse` call, `now2` `Date.now()` when the
continuation runs. The guard returns the state unchanged; otherwise the
user message is committed, and the continuation either appends the model
message (success) or surfaces the error (failure); `finally` clears the
in-flight flag in both branches. `handlePlayAudio` swallows every
exception internally, so it cannot alter this transition. -/
def handleSend (st : AppState) (textOverride : Option String) (now : Nat)
    (result : Except BackendFailure ChatResult) (now2 : Nat) : AppState :=
  let text := sendText st textOverride
  if jsTrimS text = "" then st
  else
    match st.activeSessionId with
    | none => st
    | some aid =>
      let userMsg := Message.plain (toString now) Role.user text now
      let st1 : AppState :=
        { st with errorMsg := none,
                  sessions := appendUserMsg st.sessions aid userMsg text,
                  input := "", isTyping := true }
      match result with
      | Except.ok r =>
        let sources := deriveGroundingSources r.grounding
        let extracted := extractPsychS r.text
        let botMsg : Message :=
          { id := toString (now2 + 1), role := Role.model, text := extracted.1,
            timestamp := now2, audioUrl := none, imageUrl := none,
            psychAnalysis := some extracted.2, language := none,
            groundingSources := some sources }
        { st1 with sessions := appendModelMsg st1.sessions aid botMsg,
                   isTyping := false }
      | Except.error e =>
        { st1 with errorMsg := some (surfacedError chatFallbackMsg e),
                   isTyping := false }

/-- `createNewSession` (App.tsx lines 124-134): a fresh session is
prepended and becomes active. -/
def createNewSession (st : AppState) (now : Nat) : AppState :=
  let newSession : ChatSession :=
    { id := toString now, title := "New Conversation", messages := [], createdAt := now }
  { st with sessions := newSession :: st.sessions,
            activeSessionId := some (toString now) }

/-- `deleteSession` (App.tsx lines 136-146): filter the session out; when
it was active, activate the first remaining session (or `null`), and when
none remain schedule `createNewSession` via `setTimeout` — modelled here
by running the deferred creation (with its own `Date.now()` value `now`)
as part of the transition, which is the state once the timeout fires. -/
def deleteSession (st : AppState) (id : String) (now : Nat) : AppState :=
  let filtered := st.sessions.filter (fun s => decide (s.id ≠ id))
  if st.activeSessionId = some id then
    let st1 : AppState :=
      { st with sessions := filtered,
                activeSessionId := (filtered.head?).map (fun s => s.id) }
    if filtered.isEmpty then createNewSession st1 now else st1
  else
    { st with sessions := filtered }

/-- `handleGenerateImage` (App.tsx lines 254-281) as a state transition;
`result` is the settled outcome of `gemini.generateImage` (`ok none`
models a `null` image result). -/
def handleGenerateImage (st : AppState)
    (result : Except BackendFailure (Option String)) (now : Nat) : AppState :=
  if jsTrimS st.input = "" then st
  else
    match st.activeSessionId with
    | none => st
    | some aid =>
      let st1 : AppState := { st with errorMsg := none, isGeneratingImage := true }
      match result with
      | Except.ok (some url) =>
        let imgMsg : Message :=
          { id := toString now, role := Role.model,
            text := "Generated image for: \"" ++ st.input ++ "\"",
            timestamp := now, audioUrl := none, imageUrl := some url,
            psychAnalysis := none, language := none, groundingSources := none }
        { st1 with sessions := appendModelMsg st1.sessions aid imgMsg,
                   input := "", isGeneratingImage := false }
      | Except.ok none =>
        { st1 with errorMsg := some "Failed to generate image. Please try a different prompt.",
                   isGeneratingImage := false }
      | Except.error e =>
        { st1 with errorMsg := some (surfacedError imageFallbackMsg e),
                   isGeneratingImage := false }

/-! ### JSON serialization (storage round-trip)

`storageService.saveSessions` stores `JSON.stringify(sessions)` and
`getSessions` returns `JSON.parse(saved)`.  Both are ECMAScript built-ins,
so we embed them here: `stringifyJ` reproduces `JSON.stringify` on the
value shapes the session data can take (strings, non-negative integer
numbers, arrays, objects; `undefined` fields are omitted, exactly as
`JSON.stringify` omits them), and `parseJVal` is a recursive-descent
embedding of `JSON.parse` adequate on every output of `stringifyJ`
(it accepts the whole grammar reachable from such outputs; JSON features
the serializer can never emit — fractional or signed numbers, `true`,
`false`, `null`, inter-token whitespace — do not occur in them). -/

/-- A JSON value as produced by serializing session data. -/
inductive JVal where
  | jstr : List Char → JVal
  | jnum : Nat → JVal
  | jarr : List JVal → JVal
  | jobj : List (List Char × JVal) → JVal

/-- The double-quote character. -/
def dquote : Char := Char.ofNat 34

/-- The backslash character. -/
def bslash : Char := Char.ofNat 92

/-- Lowercase hexadecimal digit for `d < 16` (as `JSON.stringify` emits
in `\u00XY` escapes). -/
def hexDigitCh (d : Nat) : Char :=
  Char.ofNat (if d < 10 then 48 + d else 87 + d)

/-- Decimal digit character for `d < 10`. -/
def digitCh (d : Nat) : Char := Char.ofNat (48 + d)

/-- Is `c` a decimal digit? -/
def isDigitCh (c : Char) : Bool := 48 ≤ c.toNat && c.toNat ≤ 57

/-- Numeric value of a digit character. -/
def digitVal (c : Char) : Nat := c.toNat - 48

/-- How `JSON.stringify` escapes one character inside a string literal:
quote and backslash get a backslash escape, the named control characters
get their two-character escapes, the remaining control characters get
`\u00XY`, and every other character is emitted literally. -/
def escChar (c : Char) : List Char :=
  if c = dquote then [bslash, dquote]
  else if c = bslash then [bslash, bslash]
  else if c = Char.ofNat 8 then [bslash, 'b']
  else if c = Char.ofNat 9 then [bslash, 't']
  else if c = Char.ofNat 10 then [bslash, 'n']
  else if c = Char.ofNat 12 then [bslash, 'f']
  else if c = Char.ofNat 13 then [bslash, 'r']
  else if c.toNat < 32 then
    [bslash, 'u', '0', '0', hexDigitCh (c.toNat / 16), hexDigitCh (c.toNat % 16)]
  else [c]

/-- Escape a whole string body. -/
def escStr (s : List Char) : List Char := (s.map escChar).flatten

/-- Decimal representation of a natural number (`JSON.stringify` of an
integer-valued JavaScript number). -/
def natToChars (n : Nat) : List Char :=
  if n = 0 then [digitCh 0] else ((Nat.digits 10 n).map digitCh).reverse

mutual
/-- `JSON.stringify` (no spacing argument): strings quoted and escaped,
numbers in decimal, arrays and objects with comma-separated members and
no whitespace. -/
def stringifyJ : JVal → List Char
  | JVal.jstr s => dquote :: (escStr s ++ [dquote])
  | JVal.jnum n => natToChars n
  | JVal.jarr l => '[' :: (stringifyElems l ++ [']'])
  | JVal.jobj l => lbrace :: (stringifyFields l ++ [rbrace])

/-- Comma-separated array elements. -/
def stringifyElems : List JVal → List Char
  | [] => []
  | [v] => stringifyJ v
  | v :: rest => stringifyJ v ++ ',' :: stringifyElems rest

/-- Comma-separated `"key":value` members. -/
def stringifyFields : List (List Char × JVal) → List Char
  | [] => []
  | [(k, v)] => dquote :: (escStr k ++ dquote :: ':' :: stringifyJ v)
  | (k, v) :: rest =>
    dquote :: (escStr k ++ dquote :: ':' :: stringifyJ v) ++ ',' :: stringifyFields rest
end

/-- Value of a hexadecimal digit character, if it is one. -/
def hexVal (c : Char) : Option Nat :=
  if 48 ≤ c.toNat ∧ c.toNat ≤ 57 then some (c.toNat - 48)
  else if 97 ≤ c.toNat ∧ c.toNat ≤ 102 then some (c.toNat - 87)
  else if 65 ≤ c.toNat ∧ c.toNat ≤ 70 then some (c.toNat - 55)
  else none

/-- Decode a single-character escape (the inverse of the named cases of
`escChar`, plus `\/` which `JSON.parse` also accepts). -/
def unescCh (e : Char) : Option Char :=
  if e = dquote then some dquote
  else if e = bslash then some bslash
  else if e = '/' then some '/'
  else if e = 'b' then some (Char.ofNat 8)
  else if e = 'f' then some (Char.ofNat 12)
  else if e = 'n' then some (Char.ofNat 10)
  else if e = 'r' then some (Char.ofNat 13)
  else if e = 't' then some (Char.ofNat 9)
  else none

/-- Parse a string body after its opening quote, returning the decoded
characters and the input after the closing quote. -/
def parseStrBody : List Char → Option (List Char × List Char)
  | [] => none
  | c :: rest =>
    if c = dquote then some ([], rest)
    else if c = bslash then
      match rest with
      | [] => none
      | e :: rest2 =>
        if e = 'u' then
          match rest2 with
          | a :: b :: c2 :: d :: rest3 =>
            match hexVal a, hexVal b, hexVal c2, hexVal d with
            | some va, some vb, some vc, some vd =>
              match parseStrBody rest3 with
              | none => none
              | some (str, r) =>
                some (Char.ofNat (((va * 16 + vb) * 16 + vc) * 16 + vd) :: str, r)
            | _, _, _, _ => none
          | _ => none
        else
          match unescCh e with
          | none => none
          | some ch =>
            match parseStrBody rest2 with
            | none => none
            | some (str, r) => some (ch :: str, r)
    else
      match parseStrBody rest with
      | none => none
      | some (str, r) => some (c :: str, r)

/-- Parse a decimal number (a nonempty digit run). -/
def parseNum (s : List Char) : Option (Nat × List Char) :=
  let ds := s.takeWhile isDigitCh
  if ds.isEmpty then none
  else some (Nat.ofDigits 10 ((ds.map digitVal).reverse), s.dropWhile isDigitCh)

mutual
/-- Recursive-descent `JSON.parse` (fueled; each level of value nesting
consumes one unit, so any fuel ≥ the nesting depth is enough). -/
def parseJVal : Nat → List Char → Option (JVal × List Char)
  | 0, _ => none
  | fuel + 1, s =>
    match s with
    | [] => none
    | c :: rest =>
      if c = dquote then
        match parseStrBody rest with
        | none => none
        | some (str, r) => some (JVal.jstr str, r)
      else if c = '[' then
        match rest with
        | [] => none
        | c2 :: r2 =>
          if c2 = ']' then some (JVal.jarr [], r2)
          else
            match parseElems fuel rest with
            | none => none
            | some (vs, r3) => some (JVal.jarr vs, r3)
      else if c = lbrace then
        match rest with
        | [] => none
        | c2 :: r2 =>
          if c2 = rbrace then some (JVal.jobj [], r2)
          else
            match parseFields fuel rest with
            | none => none
            | some (fs, r3) => some (JVal.jobj fs, r3)
      else
        match parseNum (c :: rest) with
        | none => none
        | some (n, r) => some (JVal.jnum n, r)

/-- Parse `elem (',' elem)* ']'` for a nonempty array. -/
def parseElems : Nat → List Char → Option (List JVal × List Char)
  | 0, _ => none
  | fuel + 1, s =>
    match parseJVal fuel s with
    | none => none
    | some (v, r) =>
      match r with
      | [] => none
      | c :: r2 =>
        if c = ',' then
          match parseElems fuel r2 with
          | none => none
          | some (vs, r3) => some (v :: vs, r3)
        else if c = ']' then some ([v], r2)
        else none

/-- Parse `"key" ':' value (',' member)* '  '` members of a nonempty
object, up to and including the closing brace. -/
def parseFields : Nat → List Char → Option (List (List Char × JVal) × List Char)
  | 0, _ => none
  | fuel + 1, s =>
    match s with
    | [] => none
    | c :: rest =>
      if c = dquote then
        match parseStrBody rest with
        | none => none
        | some (k, r) =>
          match r with
          | [] => none
          | c2 :: r2 =>
            if c2 = ':' then
              match parseJVal fuel r2 with
              | none => none
              | some (v, r3) =>
                match r3 with
                | [] => none
                | c3 :: r4 =>
                  if c3 = ',' then
                    match parseFields fuel r4 with
                    | none => none
                    | some (fs, r5) => some ((k, v) :: fs, r5)
                  else if c3 = rbrace then some ([(k, v)], r4)
                  else none
            else none
      else none
end

/-- The continuation after a serialized value never starts with a digit
(it is empty or starts with a separator/closer), so number parsing stops
exactly at the value boundary. -/
def hdOk (rest : List Char) : Bool :=
  match rest with
  | [] => true
  | c :: _ => !isDigitCh c

/-- First characters a serialized JSON value can have. -/
def startsJVal (c : Char) : Bool :=
  c = dquote || c = '[' || c = lbrace || isDigitCh c

mutual
/-- Fuel measure making the parser total on serialized output: one unit
per value node plus one per list element. -/
def jfuel : JVal → Nat
  | JVal.jstr _ => 1
  | JVal.jnum _ => 1
  | JVal.jarr l => 1 + jfuelElems l
  | JVal.jobj l => 1 + jfuelFields l

def jfuelElems : List JVal → Nat
  | [] => 0
  | v :: rest => 1 + jfuel v + jfuelElems rest

def jfuelFields : List (List Char × JVal) → Nat
  | [] => 0
  | (_, v) :: rest => 1 + jfuel v + jfuelFields rest
end

/-! ### Encoding the session data as JSON values

`JSON.stringify(sessions)` walks the runtime objects; field order follows
the object layout and `undefined` optional fields are omitted. -/

/-- Optional string property: omitted when absent. -/
def optStrField (name : String) (v : Option String) : List (List Char × JVal) :=
  match v with
  | none => []
  | some s => [(name.data, JVal.jstr s.data)]

/-- The serialized role literal. -/
def roleStr : Role → List Char
  | Role.user => ("user").data
  | Role.model => ("model").data

/-- One grounding source as a JSON object. -/
def encodeSource (g : GroundingSource) : JVal :=
  JVal.jobj (optStrField "title" g.title ++ optStrField "uri" g.uri)

/-- One message as a JSON object. -/
def encodeMessage (m : Message) : JVal :=
  JVal.jobj (
    [(("id").data, JVal.jstr m.id.data),
     (("role").data, JVal.jstr (roleStr m.role)),
     (("text").data, JVal.jstr m.text.data),
     (("timestamp").data, JVal.jnum m.timestamp)]
    ++ optStrField "audioUrl" m.audioUrl
    ++ optStrField "imageUrl" m.imageUrl
    ++ optStrField "psychAnalysis" m.psychAnalysis
    ++ optStrField "language" m.language
    ++ (match m.groundingSources with
        | none => []
        | some gs => [(("groundingSources").data, JVal.jarr (gs.map encodeSource))]))

/-- One session as a JSON object. -/
def encodeSession (s : ChatSession) : JVal :=
  JVal.jobj
    [(("id").data, JVal.jstr s.id.data),
     (("title").data, JVal.jstr s.title.data),
     (("messages").data, JVal.jarr (s.messages.map encodeMessage)),
     (("createdAt").data, JVal.jnum s.createdAt)]

/-- The whole session collection as a JSON array. -/
def encodeSessions (l : List ChatSession) : JVal :=
  JVal.jarr (l.map encodeSession)

/-! ### Reading the parsed sessions back

`getSessions` hands the parsed objects straight to the application, which
reads the fields by name.  The round-trip claim compares the collections
field-wise over each session's `id` and each message's `id`, `role`,
`text` and `timestamp`, so the readback below projects exactly those
fields. -/

/-- The compared fields of one message. -/
structure MessageCore where
  id : String
  role : Role
  text : String
  timestamp : Nat
deriving DecidableEq, Repr

/-- The compared fields of one session. -/
structure SessionCore where
  id : String
  messages : List MessageCore
deriving DecidableEq, Repr

/-- Project a message onto the compared fields. -/
def projectMessage (m : Message) : MessageCore :=
  { id := m.id, role := m.role, text := m.text, timestamp := m.timestamp }

/-- Project a session onto the compared fields. -/
def projectSession (s : ChatSession) : SessionCore :=
  { id := s.id, messages := s.messages.map projectMessage }

/-- Property access on a parsed JSON object (the serializer never emits
duplicate keys, so first-match lookup is exact). -/
def lookupField (name : List Char) : List (List Char × JVal) → Option JVal
  | [] => none
  | (k, v) :: rest => if k = name then some v else lookupField name rest

/-- Read a role literal back. -/
def decodeRole (v : JVal) : Option Role :=
  match v with
  | JVal.jstr s =>
    if s = ("user").data then some Role.user
    else if s = ("model").data then some Role.model
    else none
  | _ => none

/-- Read the compared fields of one message back. -/
def decodeMessageCore (v : JVal) : Option MessageCore :=
  match v with
  | JVal.jobj fs =>
    match lookupField ("id").data fs, lookupField ("role").data fs,
          lookupField ("text").data fs, lookupField ("timestamp").data fs with
    | some (JVal.jstr i), some r, some (JVal.jstr t), some (JVal.jnum ts) =>
      match decodeRole r with
      | some role => some { id := String.mk i, role := role, text := String.mk t, timestamp := ts }
      | none => none
    | _, _, _, _ => none
  | _ => none

/-- Decode every element of a list, failing if any element fails. -/
def decodeList {α : Type} (f : JVal → Option α) : List JVal → Option (List α)
  | [] => some []
  | v :: rest =>
    match f v, decodeList f rest with
    | some a, some l => some (a :: l)
    | _, _ => none

/-- Read the compared fields of one session back. -/
def decodeSessionCore (v : JVal) : Option SessionCore :=
  match v with
  | JVal.jobj fs =>
    match lookupField ("id").data fs, lookupField ("messages").data fs with
    | some (JVal.jstr i), some (JVal.jarr ms) =>
      match decodeList decodeMessageCore ms with
      | some l => some { id := String.mk i, messages := l }
      | none => none
    | _, _ => none
  | _ => none

/-- Read the whole collection back. -/
def decodeSessionsCore (v : JVal) : Option (List SessionCore) :=
  match v with
  | JVal.jarr l => decodeList decodeSessionCore l
  | _ => none

/-! ### The persistent store as a key-value map -/

/-- The `localStorage` contents: key-value pairs of strings (most recent
write for a key listed first). -/
abbrev Store := List (List Char × List Char)

/-- `localStorage.setItem`. -/
def setItem (store : Store) (k v : List Char) : Store := (k, v) :: store

/-- `localStorage.getItem` (most recent write wins; `none` is `null`). -/
def getItem (store : Store) (k : List Char) : Option (List Char) :=
  match store with
  | [] => none
  | (k2, v) :: rest => if k2 = k then some v else getItem rest k

/-- The sessions storage key (`SESSIONS_KEY`). -/
def sessionsKey : List Char := ("mini_ai_sessions").data

/-- `saveSessions` against a concrete store:
`localStorage.setItem(SESSIONS_KEY, JSON.stringify(sessions))`. -/
def saveSessionsStore (store : Store) (sessions : List ChatSession) : Store :=
  setItem store sessionsKey (stringifyJ (encodeSessions sessions))

/-- `getSessions` against a concrete store, projected onto the compared
fields: read the stored string, `JSON.parse` it (with fuel ample for the
input), require the parse to consume the whole string, and read the
session fields; every failure yields the default `[]`. -/
def getSessionsStore (store : Store) : List SessionCore :=
  match getItem store sessionsKey with
  | none => []
  | some s =>
    match parseJVal (s.length + 1) s with
    | none => []
    | some (v, r) =>
      if r.isEmpty then
        match decodeSessionsCore v with
        | none => []
        | some l => l
      else []

/-! ### Concrete states used to instantiate the claim theorems -/

/-- A state whose input is whitespace only (guard must reject). -/
def c3WitnessState : AppState :=
  { sessions := [], activeSessionId := some "1", input := "  ",
    isTyping := false, isGeneratingImage := false, errorMsg := none,
    settings := initialSettings }

/-- A state with one active empty session and a nonempty input. -/
def c2WitnessState : AppState :=
  { sessions := [{ id := "s1", title := "New Conversation", messages := [], createdAt := 1 }],
    activeSessionId := some "s1", input := "hello",
    isTyping := false, isGeneratingImage := false, errorMsg := none,
    settings := initialSettings }

/-- The session of `c4WitnessState1`. -/
def c4OnlySession : ChatSession :=
  { id := "only", title := "T", messages := [], createdAt := 3 }

/-- A state with exactly one session, which is active. -/
def c4WitnessState1 : AppState :=
  { sessions := [c4OnlySession], activeSessionId := some "only", input := "",
    isTyping := false, isGeneratingImage := false, errorMsg := none,
    settings := initialSettings }

/-- Second session of `c4WitnessState2`. -/
def c4SessionB : ChatSession :=
  { id := "b", title := "B", messages := [], createdAt := 4 }

/-- A state with two sessions where the first is active. -/
def c4WitnessState2 : AppState :=
  { sessions := [{ id := "a", title := "A", messages := [], createdAt := 3 }, c4SessionB],
    activeSessionId := some "a", input := "",
    isTyping := false, isGeneratingImage := false, errorMsg := none,
    settings := initialSettings }

/-! ## Theorems

First the helper lemmas about the regex embedding, then the claim
theorems. -/

theorem findIdxAux_eq_some {pr : Char → Bool} :
    ∀ {l : List Char} {j : Nat}, findIdxAux pr l = some j →
      ∃ a, l.get? j = some a ∧ pr a = true ∧
        ∀ x b, x < j → l.get? x = some b → pr b = false
  | [], j, h => by simp [findIdxAux] at h
  | c :: rest, j, h => by
    rw [findIdxAux] at h
    by_cases hc : pr c
    · rw [if_pos hc] at h
      cases h
      exact ⟨c, rfl, hc, fun x b hx => by omega⟩
    · rw [if_neg hc, Option.map_eq_some'] at h
      obtain ⟨j0, hj0, rfl⟩ := h
      obtain ⟨a, ha, hpa, hmin⟩ := findIdxAux_eq_some hj0
      refine ⟨a, ha, hpa, ?_⟩
      intro x b hx hg
      cases x with
      | zero =>
        have hbc : c = b := by simpa using hg
        subst hbc
        simpa using hc
      | succ x0 => exact hmin x0 b (by omega) hg

theorem findIdxAux_eq_none {pr : Char → Bool} :
    ∀ {l : List Char}, findIdxAux pr l = none →
      ∀ x b, l.get? x = some b → pr b = false
  | [], _, x, b, hg => by simp at hg
  | c :: rest, h, x, b, hg => by
    rw [findIdxAux] at h
    by_cases hc : pr c
    · rw [if_pos hc] at h
      cases h
    · rw [if_neg hc, Option.map_eq_none'] at h
      cases x with
      | zero =>
        have hbc : c = b := by simpa using hg
        subst hbc
        simpa using hc
      | succ x0 => exact findIdxAux_eq_none h x0 b hg

theorem idxOfFrom_spec_some {c : Char} {s : List Char} {k j : Nat}
    (h : idxOfFrom c s k = some j) :
    k ≤ j ∧ s.get? j = some c ∧ ∀ x, k ≤ x → x < j → s.get? x ≠ some c := by
  unfold idxOfFrom at h
  rw [Option.map_eq_some'] at h
  obtain ⟨j0, hj0, rfl⟩ := h
  obtain ⟨a, ha, hpa, hmin⟩ := findIdxAux_eq_some hj0
  rw [List.get?_drop] at ha
  have hac : a = c := by simpa using hpa
  subst hac
  refine ⟨Nat.le_add_right k j0, ha, ?_⟩
  intro x hkx hxj hg
  have hx : (s.drop k).get? (x - k) = some a := by
    rw [List.get?_drop]
    rw [show k + (x - k) = x by omega]
    exact hg
  have := hmin (x - k) a (by omega) hx
  simp at this

theorem idxOfFrom_spec_none {c : Char} {s : List Char} {k : Nat}
    (h : idxOfFrom c s k = none) :
    ∀ x, k ≤ x → s.get? x ≠ some c := by
  unfold idxOfFrom at h
  rw [Option.map_eq_none'] at h
  intro x hkx hg
  have hx : (s.drop k).get? (x - k) = some c := by
    rw [List.get?_drop]
    rw [show k + (x - k) = x by omega]
    exact hg
  have := findIdxAux_eq_none h (x - k) c hx
  simp at this

theorem psychNeedle_ne_nil : psychNeedle ≠ [] := by decide

theorem psychNeedle_length_pos : 0 < psychNeedle.length := by decide

theorem needleAt_lt_length {s : List Char} {p : Nat}
    (h : needleAt s p = true) : p < s.length := by
  by_contra hge
  push_neg at hge
  have hd : s.drop p = [] := List.drop_eq_nil_of_le hge
  unfold needleAt at h
  rw [hd] at h
  simp at h
  exact psychNeedle_ne_nil h

theorem viableNeedle_iff {s : List Char} {p : Nat} :
    viableNeedle s p = true ↔ ViableAt s p := by
  unfold viableNeedle ViableAt
  rw [Bool.and_eq_true]
  constructor
  · rintro ⟨hn, hsome⟩
    refine ⟨hn, ?_⟩
    obtain ⟨j, hj⟩ := Option.isSome_iff_exists.mp hsome
    obtain ⟨hk, hg, _⟩ := idxOfFrom_spec_some hj
    exact ⟨j, hk, hg⟩
  · rintro ⟨hn, q, hq1, hq2⟩
    refine ⟨hn, ?_⟩
    cases hf : idxOfFrom rbrace s (p + psychNeedle.length) with
    | some j => rfl
    | none => exact absurd hq2 (idxOfFrom_spec_none hf q hq1)

theorem lastViableAux_eq_some {s : List Char} {lo : Nat} :
    ∀ {n p : Nat}, lastViableAux s lo n = some p →
      lo ≤ p ∧ viableNeedle s p = true ∧ p < n ∧
        ∀ r, p < r → r < n → ¬(lo ≤ r ∧ viableNeedle s r = true)
  | 0, p, h => by simp [lastViableAux] at h
  | n + 1, p, h => by
    by_cases hc : lo ≤ n ∧ viableNeedle s n = true
    · rw [lastViableAux, if_pos hc] at h
      cases h
      exact ⟨hc.1, hc.2, Nat.lt_succ_self _, fun r h1 h2 => by omega⟩
    · rw [lastViableAux, if_neg hc] at h
      obtain ⟨h1, h2, h3, h4⟩ := lastViableAux_eq_some h
      refine ⟨h1, h2, by omega, ?_⟩
      intro r hr1 hr2
      rcases Nat.lt_or_ge r n with hlt | hge
      · exact h4 r hr1 hlt
      · have hrn : r = n := by omega
        subst hrn
        exact hc

theorem lastViableAux_eq_none {s : List Char} {lo : Nat} :
    ∀ {n : Nat}, lastViableAux s lo n = none →
      ∀ r, r < n → ¬(lo ≤ r ∧ viableNeedle s r = true)
  | 0, _, r, hr => by omega
  | n + 1, h, r, hr => by
    by_cases hc : lo ≤ n ∧ viableNeedle s n = true
    · rw [lastViableAux, if_pos hc] at h
      cases h
    · rw [lastViableAux, if_neg hc] at h
      rcases Nat.lt_or_ge r n with hlt | hge
      · exact lastViableAux_eq_none h r hlt
      · have hrn : r = n := by omega
        subst hrn
        exact hc

theorem lastViableFrom_spec_some {s : List Char} {lo p : Nat}
    (h : lastViableFrom s lo = some p) :
    lo ≤ p ∧ ViableAt s p ∧ ∀ r, lo ≤ r → ViableAt s r → r ≤ p := by
  obtain ⟨h1, h2, _, h4⟩ := lastViableAux_eq_some h
  refine ⟨h1, viableNeedle_iff.mp h2, ?_⟩
  intro r hlor hvr
  by_contra hgt
  push_neg at hgt
  have hrlen : r < s.length := needleAt_lt_length hvr.1
  exact h4 r hgt hrlen ⟨hlor, viableNeedle_iff.mpr hvr⟩

theorem lastViableFrom_spec_none {s : List Char} {lo : Nat}
    (h : lastViableFrom s lo = none) :
    ∀ r, lo ≤ r → ¬ViableAt s r := by
  intro r hlo hv
  have hrlen : r < s.length := needleAt_lt_length hv.1
  exact lastViableAux_eq_none h r hrlen ⟨hlo, viableNeedle_iff.mpr hv⟩

theorem jsMatchFrom_spec_some {s : List Char} {k i e : Nat}
    (h : jsMatchFrom s k = some (i, e)) :
    k ≤ i ∧ s.get? i = some lbrace ∧
      (∀ j, k ≤ j → j < i → s.get? j ≠ some lbrace) ∧
      ∃ p q, i < p ∧ ViableAt s p ∧ (∀ r, i < r → ViableAt s r → r ≤ p) ∧
        p + psychNeedle.length ≤ q ∧ s.get? q = some rbrace ∧
        (∀ x, p + psychNeedle.length ≤ x → x < q → s.get? x ≠ some rbrace) ∧
        e = q + 1 := by
  unfold jsMatchFrom at h
  cases hb : idxOfFrom lbrace s k with
  | none => simp only [hb] at h; exact Option.noConfusion h
  | some i0 =>
    simp only [hb] at h
    cases hv : lastViableFrom s (i0 + 1) with
    | none => simp only [hv] at h; exact Option.noConfusion h
    | some p =>
      simp only [hv] at h
      cases hq : idxOfFrom rbrace s (p + psychNeedle.length) with
      | none => simp only [hq] at h; exact Option.noConfusion h
      | some q =>
        simp only [hq, Option.some.injEq, Prod.mk.injEq] at h
        obtain ⟨rfl, rfl⟩ := h
        obtain ⟨hki, hgi, hmini⟩ := idxOfFrom_spec_some hb
        obtain ⟨hlop, hvp, hmaxp⟩ := lastViableFrom_spec_some hv
        obtain ⟨hkq, hgq, hminq⟩ := idxOfFrom_spec_some hq
        exact ⟨hki, hgi, hmini, p, q, by omega, hvp,
               fun r hr hvr => hmaxp r (by omega) hvr, hkq, hgq,
               fun x hx1 hx2 => hminq x hx1 hx2, rfl⟩

theorem jsMatchFrom_spec_none {s : List Char} {k : Nat}
    (h : jsMatchFrom s k = none) :
    ∀ i p q, k ≤ i → s.get? i = some lbrace → i < p → needleAt s p = true →
      p + psychNeedle.length ≤ q → s.get? q = some rbrace → False := by
  intro i p q hki hgi hip hnp hpq hgq
  unfold jsMatchFrom at h
  cases hb : idxOfFrom lbrace s k with
  | none => exact idxOfFrom_spec_none hb i hki hgi
  | some i0 =>
    simp only [hb] at h
    have hvp : ViableAt s p := ⟨hnp, q, hpq, hgq⟩
    obtain ⟨hki0, hgi0, hmin⟩ := idxOfFrom_spec_some hb
    have hi0i : i0 ≤ i := by
      by_contra hlt
      push_neg at hlt
      exact hmin i hki hlt hgi
    cases hv : lastViableFrom s (i0 + 1) with
    | none => exact lastViableFrom_spec_none hv p (by omega) hvp
    | some p2 =>
      simp only [hv] at h
      obtain ⟨_, hvp2, _⟩ := lastViableFrom_spec_some hv
      cases hq2 : idxOfFrom rbrace s (p2 + psychNeedle.length) with
      | none =>
        obtain ⟨_, q2, hq2a, hq2b⟩ := hvp2
        exact idxOfFrom_spec_none hq2 q2 hq2a hq2b
      | some q2 => simp only [hq2] at h; exact Option.noConfusion h

theorem jsMatchFrom_zero_isPsychMatch {s : List Char} {i e : Nat}
    (h : jsMatchFrom s 0 = some (i, e)) : IsPsychMatch s i e := by
  obtain ⟨_, hgi, hmin, p, q, hrest⟩ := jsMatchFrom_spec_some h
  exact ⟨hgi, fun j hj => hmin j (Nat.zero_le j) hj, p, q, hrest⟩

theorem isPsychMatch_unique {s : List Char} {i e i2 e2 : Nat}
    (h1 : IsPsychMatch s i e) (h2 : IsPsychMatch s i2 e2) : i = i2 ∧ e = e2 := by
  obtain ⟨hg1, hmin1, p1, q1, hip1, hv1, hmax1, hpq1, hgq1, hminq1, he1⟩ := h1
  obtain ⟨hg2, hmin2, p2, q2, hip2, hv2, hmax2, hpq2, hgq2, hminq2, he2⟩ := h2
  have hi : i = i2 := by
    rcases Nat.lt_trichotomy i i2 with hlt | heq | hgt
    · exact absurd hg1 (hmin2 i hlt)
    · exact heq
    · exact absurd hg2 (hmin1 i2 hgt)
  subst hi
  have hp : p1 = p2 := Nat.le_antisymm (hmax2 p1 hip1 hv1) (hmax1 p2 hip2 hv2)
  subst hp
  have hq : q1 = q2 := by
    rcases Nat.lt_trichotomy q1 q2 with hlt | heq | hgt
    · exact absurd hgq1 (hminq2 q1 hpq1 hlt)
    · exact heq
    · exact absurd hgq2 (hminq1 q2 hpq2 hgt)
  omega

theorem isPsychMatch_jsMatchFrom {s : List Char} {i e : Nat}
    (h : IsPsychMatch s i e) : jsMatchFrom s 0 = some (i, e) := by
  cases hm : jsMatchFrom s 0 with
  | none =>
    obtain ⟨hgi, _, p, q, hip, hvp, _, hpq, hgq, _, _⟩ := h
    exact absurd hgq (fun hg =>
      jsMatchFrom_spec_none hm i p q (Nat.zero_le i) hgi hip hvp.1 hpq hg)
  | some ie =>
    obtain ⟨i2, e2⟩ := ie
    obtain ⟨hi, he⟩ := isPsychMatch_unique (jsMatchFrom_zero_isPsychMatch hm) h
    rw [hi, he]

theorem jsMatchFrom_after {s : List Char} {i e : Nat}
    (h : jsMatchFrom s 0 = some (i, e)) : jsMatchFrom s e = none := by
  obtain ⟨_, _, _, p, q, hip, hvp, hmax, hpq, hgq, _, he⟩ := jsMatchFrom_spec_some h
  cases hm : jsMatchFrom s e with
  | none => rfl
  | some ie2 =>
    obtain ⟨i2, e2⟩ := ie2
    obtain ⟨hei2, _, _, p2, q2, hip2, hvp2, _, _⟩ := jsMatchFrom_spec_some hm
    have hle : p2 ≤ p := hmax p2 (by omega) hvp2
    have hpos := psychNeedle_length_pos
    omega

theorem jsMatchesAux_succ (s : List Char) (fuel k : Nat) :
    jsMatchesAux s (fuel + 1) k =
      match jsMatchFrom s k with
      | none => []
      | some (i, e) => (i, e) :: jsMatchesAux s fuel e := rfl

theorem jsMatchesAux_zero (s : List Char) (k : Nat) :
    jsMatchesAux s 0 k = [] := rfl

theorem jsMatches_eq_single {s : List Char} {i e : Nat}
    (h : jsMatchFrom s 0 = some (i, e)) : jsMatches s = [(i, e)] := by
  have hafter := jsMatchFrom_after h
  unfold jsMatches
  rw [jsMatchesAux_succ]
  simp only [h]
  cases hn : s.length with
  | zero => rw [jsMatchesAux_zero]
  | succ m => rw [jsMatchesAux_succ]; simp only [hafter]

theorem jsMatches_eq_nil {s : List Char} (h : jsMatchFrom s 0 = none) :
    jsMatches s = [] := by
  unfold jsMatches
  rw [jsMatchesAux_succ]
  simp only [h]

theorem extractPsych_of_match {s : List Char} {i e : Nat}
    (h : jsMatchFrom s 0 = some (i, e)) :
    extractPsych s = (jsTrim (s.take i ++ s.drop e), sliceAt s i e) := by
  unfold extractPsych
  rw [jsMatches_eq_single h]
  simp [removeSpansFrom]

theorem extractPsych_of_no_match {s : List Char} (h : jsMatchFrom s 0 = none) :
    extractPsych s = (s, []) := by
  unfold extractPsych
  rw [jsMatches_eq_nil h]

/-- **C1.** For every raw reply text containing a fragment the
psych-insight pattern can match, the extraction step sets `psychAnalysis`
to exactly the matched fragment verbatim (`sliceAt s i e`, where `[i, e)`
is the unique match of the pattern, characterized declaratively by
`IsPsychMatch`), and the displayed text is the raw reply with exactly
that fragment removed and the remainder trimmed — even though the code
uses a global `replace`, the pattern can match at most once, so only the
first match is ever used. For every raw reply without such a fragment,
the displayed text is the raw reply unmodified and `psychAnalysis` is
empty. -/
theorem c1_psych_extraction (s : List Char) :
    (HasPsychFragment s ↔ ∃ i e, IsPsychMatch s i e) ∧
    (∀ i e, IsPsychMatch s i e →
      s = s.take i ++ sliceAt s i e ++ s.drop e ∧
      extractPsych s = (jsTrim (s.take i ++ s.drop e), sliceAt s i e)) ∧
    (∀ i e i2 e2, IsPsychMatch s i e → IsPsychMatch s i2 e2 → i = i2 ∧ e = e2) ∧
    (¬ HasPsychFragment s → extractPsych s = (s, [])) := by
  refine ⟨⟨?_, ?_⟩, ?_, fun i e i2 e2 h1 h2 => isPsychMatch_unique h1 h2, ?_⟩
  · rintro ⟨i, p, q, hgi, hip, hnp, hpq, hgq⟩
    cases hm : jsMatchFrom s 0 with
    | none =>
      exact absurd hgq (fun hg =>
        jsMatchFrom_spec_none hm i p q (Nat.zero_le i) hgi hip hnp hpq hg)
    | some ie =>
      obtain ⟨i2, e2⟩ := ie
      exact ⟨i2, e2, jsMatchFrom_zero_isPsychMatch hm⟩
  · rintro ⟨i, e, hgi, _, p, q, hip, hvp, _, hpq, hgq, _, _⟩
    exact ⟨i, p, q, hgi, hip, hvp.1, hpq, hgq⟩
  · intro i e hm
    have hjs := isPsychMatch_jsMatchFrom hm
    obtain ⟨_, _, _, p, q, hip, _, _, hpq, hgq, _, he⟩ := jsMatchFrom_spec_some hjs
    have hie : i ≤ e := by
      have := psychNeedle_length_pos
      omega
    constructor
    · have h1 : s.take i ++ s.drop i = s := List.take_append_drop i s
      have h2 : sliceAt s i e ++ s.drop e = s.drop i := by
        unfold sliceAt
        have h3 : (s.drop i).drop (e - i) = s.drop e := by
          rw [List.drop_drop]
          rw [show i + (e - i) = e by omega]
        rw [← h3]
        exact List.take_append_drop _ _
      rw [List.append_assoc, h2, h1]
    · exact extractPsych_of_match hjs
  · intro hno
    cases hm : jsMatchFrom s 0 with
    | none => exact extractPsych_of_no_match hm
    | some ie =>
      obtain ⟨i2, e2⟩ := ie
      obtain ⟨hgi, _, p, q, hip, hvp, _, hpq, hgq, _, _⟩ :=
        jsMatchFrom_zero_isPsychMatch hm
      exact absurd ⟨i2, p, q, hgi, hip, hvp.1, hpq, hgq⟩ hno

/-- Witness for C1: a reply that is exactly one psych fragment has that
fragment extracted verbatim and removed from the displayed text, and the
empty reply is passed through unchanged with empty `psychAnalysis`. -/
theorem c1_psych_extraction_witness :
    extractPsych c1WitnessText =
      (jsTrim (c1WitnessText.take 0 ++ c1WitnessText.drop 28), sliceAt c1WitnessText 0 28) ∧
    extractPsych [] = ([], []) := by
  constructor
  · exact ((c1_psych_extraction c1WitnessText).2.1 0 28
      (jsMatchFrom_zero_isPsychMatch (by decide))).2
  · refine (c1_psych_extraction []).2.2.2 ?_
    rintro ⟨i, p, q, hgi, -⟩
    simp at hgi

/-! ### C6: grounding filter -/

/-- **C6.** The derived `groundingSources` keep exactly the chunks that
carry a web citation, in their original order, each mapped to its
`(title, uri)` pair — equivalently, the filter-then-map of the code is
the single pass that drops `web`-less chunks and keeps the rest in order;
and on the spec's concrete example the chunk without `web` is dropped. -/
theorem c6_grounding_filter :
    (∀ chunks : List GroundingChunk,
      deriveGroundingSources chunks =
        chunks.foldr (fun c acc =>
          match c.web with
          | some w => { title := w.title, uri := w.uri } :: acc
          | none => acc) []) ∧
    deriveGroundingSources
        [{ web := some { uri := some "a", title := none } },
         { web := none },
         { web := some { uri := some "b", title := some "B" } }] =
      [{ title := none, uri := some "a" },
       { title := some "B", uri := some "b" }] := by
  constructor
  · intro chunks
    induction chunks with
    | nil => rfl
    | cons c rest ih =>
      cases hw : c.web with
      | none =>
        unfold deriveGroundingSources at ih ⊢
        simp [List.filter_cons, hw, ih]
      | some w =>
        unfold deriveGroundingSources at ih ⊢
        simp [List.filter_cons, hw, ih]
  · rfl

/-! ### C9: default settings -/

/-- **C9.** When no settings record is present at startup (absent value,
storage failure, or a failing deserialization), the process runs with the
defaults: dark theme, volume 0.8 and playback speed 1.0, which satisfy
the declared ranges `volume ∈ [0,1]` and `playbackSpeed ∈ [0.5,2]`. -/
theorem c9_default_settings :
    startupSettings none = initialSettings ∧
    (∀ (e : String) (deser : String → Except String UserSettings),
      getSettingsSvc (Except.error e) deser = Except.ok none) ∧
    (∀ deser : String → Except String UserSettings,
      getSettingsSvc (Except.ok none) deser = Except.ok none) ∧
    (∀ raw : String,
      getSettingsSvc (Except.ok (some raw)) (fun _ => Except.error "bad JSON") =
        Except.ok none) ∧
    initialSettings.theme = Theme.dark ∧
    initialSettings.volume = 0.8 ∧
    initialSettings.playbackSpeed = 1.0 ∧
    0 ≤ initialSettings.volume ∧ initialSettings.volume ≤ 1 ∧
    (0.5 : ℚ) ≤ initialSettings.playbackSpeed ∧ initialSettings.playbackSpeed ≤ 2 := by
  refine ⟨rfl, fun e deser => rfl, fun deser => rfl, fun raw => rfl, rfl, rfl, rfl, ?_, ?_, ?_, ?_⟩ <;> norm_num [initialSettings]

/-! ### C5: storage operations and exceptions -/

/-- **C5 (refuting the universal claim).** `getActiveSessionId` is the
one store operation with no `try/catch`: a primitive storage failure
propagates past its boundary unchanged (first conjunct — the exception
escapes), while the remaining five operations swallow every primitive
failure and return normally with their defaults, as the claim states. -/
theorem c5_getActiveSessionId_throws :
    getActiveSessionIdSvc (Except.error "SecurityError") =
      Except.error "SecurityError" ∧
    (∀ o, saveSessionsSvc o = Except.ok ()) ∧
    (∀ o deser, ∃ v, getSessionsSvc o deser = Except.ok v) ∧
    (∀ id o1 o2, saveActiveSessionIdSvc id o1 o2 = Except.ok ()) ∧
    (∀ o, saveSettingsSvc o = Except.ok ()) ∧
    (∀ o deser, ∃ v, getSettingsSvc o deser = Except.ok v) := by
  refine ⟨rfl, ?_, ?_, ?_, ?_, ?_⟩
  · intro o; cases o <;> rfl
  · intro o deser
    cases o with
    | error e => exact ⟨[], rfl⟩
    | ok v =>
      cases v with
      | none => exact ⟨[], rfl⟩
      | some s =>
        cases hd : deser s with
        | error e => exact ⟨[], by simp [getSessionsSvc, hd]⟩
        | ok v2 => exact ⟨v2, by simp [getSessionsSvc, hd]⟩
  · intro id o1 o2
    cases id with
    | none => cases o2 <;> rfl
    | some a => cases o1 <;> rfl
  · intro o; cases o <;> rfl
  · intro o deser
    cases o with
    | error e => exact ⟨none, rfl⟩
    | ok v =>
      cases v with
      | none => exact ⟨none, rfl⟩
      | some s =>
        cases hd : deser s with
        | error e => exact ⟨none, by simp [getSettingsSvc, hd]⟩
        | ok v2 => exact ⟨some v2, by simp [getSettingsSvc, hd]⟩

/-! ### C8: audio decoding -/

theorem toInt16LE_bounds (lo hi : Nat) :
    -32768 ≤ toInt16LE lo hi ∧ toInt16LE lo hi ≤ 32767 := by
  simp only [toInt16LE]
  have h1 : lo % 256 < 256 := Nat.mod_lt _ (by norm_num)
  have h2 : hi % 256 < 256 := Nat.mod_lt _ (by norm_num)
  split <;> constructor <;> omega

theorem bytesToInt16_bounds :
    ∀ {data : List Nat} {s : Int}, s ∈ bytesToInt16 data →
      -32768 ≤ s ∧ s ≤ 32767
  | lo :: hi :: rest, s, hmem => by
    rw [bytesToInt16] at hmem
    rcases List.mem_cons.mp hmem with heq | hmem2
    · subst heq; exact toInt16LE_bounds lo hi
    · exact bytesToInt16_bounds hmem2
  | [], _, hmem => by simp [bytesToInt16] at hmem
  | [x], _, hmem => by simp [bytesToInt16] at hmem

theorem map_getD_range (l : List Int) (f : Int → ℚ) :
    (List.range l.length).map (fun i => f (l.getD i 0)) = l.map f := by
  induction l with
  | nil => rfl
  | cons a t ih =>
    rw [List.length_cons, List.range_succ_eq_map, List.map_cons, List.map_map]
    refine congrArg₂ List.cons rfl ?_
    rw [← ih]
    rfl

/-- **C8.** Audio decoding interprets the payload as little-endian
16-bit signed PCM: with the defaults (mono, 24kHz) the produced buffer
has exactly one channel whose samples are `s / 32768` for the decoded
16-bit values `s`, and every produced value lies in `[-1, 1]`. -/
theorem c8_audio_decode (data : List Nat) (h : data.length % 2 = 0) :
    decodeAudioData data 24000 1 =
      some { numChannels := 1, sampleRate := 24000,
             channels := [(bytesToInt16 data).map (fun s => ((s : Int) : ℚ) / 32768)] } ∧
    ∀ v ∈ (bytesToInt16 data).map (fun s => ((s : Int) : ℚ) / 32768),
      -1 ≤ v ∧ v ≤ 1 := by
  constructor
  · unfold decodeAudioData
    rw [if_neg (by omega)]
    have hr1 : List.range 1 = [0] := rfl
    simp only [hr1, List.map_cons, List.map_nil, Nat.div_one, Nat.mul_one, Nat.add_zero]
    rw [map_getD_range (bytesToInt16 data) (fun s => ((s : Int) : ℚ) / 32768)]
  · intro v hv
    rw [List.mem_map] at hv
    obtain ⟨s, hs, rfl⟩ := hv
    obtain ⟨hb1, hb2⟩ := bytesToInt16_bounds hs
    constructor
    · rw [le_div_iff (by norm_num : (0:ℚ) < 32768)]
      have hc : (-32768 : ℚ) ≤ ((s : Int) : ℚ) := by exact_mod_cast hb1
      linarith
    · rw [div_le_one (by norm_num : (0:ℚ) < 32768)]
      have hc : ((s : Int) : ℚ) ≤ 32767 := by exact_mod_cast hb2
      linarith

/-- Witness for C8: the two-byte payload `[0x00, 0x80]` decodes to the
single full-scale negative sample `-1`. -/
theorem c8_audio_decode_witness :
    decodeAudioData [0, 128] 24000 1 =
      some { numChannels := 1, sampleRate := 24000,
             channels := [(bytesToInt16 [0, 128]).map (fun s => ((s : Int) : ℚ) / 32768)] } ∧
    (bytesToInt16 [0, 128]).map (fun s => ((s : Int) : ℚ) / 32768) = [-1] :=
  ⟨(c8_audio_decode [0, 128] (by decide)).1, by norm_num [bytesToInt16, toInt16LE]⟩

/-! ### C10: frame property of the message-appending operations -/

theorem appendModelMsg_get? (sessions : List ChatSession) (aid : String)
    (m : Message) (k : Nat) :
    (appendModelMsg sessions aid m).get? k =
      (sessions.get? k).map (fun s =>
        if s.id = aid then { s with messages := s.messages ++ [m] } else s) := by
  unfold appendModelMsg
  exact List.get?_map _ _ _

theorem appendUserMsg_get? (sessions : List ChatSession) (aid : String)
    (m : Message) (text : String) (k : Nat) :
    (appendUserMsg sessions aid m text).get? k =
      (sessions.get? k).map (fun s =>
        if s.id = aid then
          { s with messages := s.messages ++ [m],
                   title := if s.messages.length = 0 then text.take 30 else s.title }
        else s) := by
  unfold appendUserMsg
  exact List.get?_map _ _ _

/-- **C10.** The message-appending operations (`appendUserMsg` is the
user-message append of `handleSend`; `appendModelMsg` is the model-reply
append of `handleSend` and the image append of `handleGenerateImage`)
leave every session other than the active one entirely unchanged, only
append at the end of the active session's message list (preserving all
existing messages and their order), and leave the whole collection
unchanged when no session matches the active id. -/
theorem c10_append_frame (sessions : List ChatSession) (aid : String)
    (m : Message) (text : String) :
    ((appendModelMsg sessions aid m).length = sessions.length ∧
     (∀ k s0, sessions.get? k = some s0 → s0.id ≠ aid →
       (appendModelMsg sessions aid m).get? k = some s0) ∧
     (∀ k s0, sessions.get? k = some s0 → s0.id = aid →
       (appendModelMsg sessions aid m).get? k =
         some { s0 with messages := s0.messages ++ [m] }) ∧
     ((∀ s ∈ sessions, s.id ≠ aid) → appendModelMsg sessions aid m = sessions)) ∧
    ((appendUserMsg sessions aid m text).length = sessions.length ∧
     (∀ k s0, sessions.get? k = some s0 → s0.id ≠ aid →
       (appendUserMsg sessions aid m text).get? k = some s0) ∧
     (∀ k s0, sessions.get? k = some s0 → s0.id = aid →
       ∃ s1, (appendUserMsg sessions aid m text).get? k = some s1 ∧
         s1.messages = s0.messages ++ [m] ∧ s1.id = s0.id ∧
         s1.createdAt = s0.createdAt) ∧
     ((∀ s ∈ sessions, s.id ≠ aid) → appendUserMsg sessions aid m text = sessions)) := by
  constructor
  · refine ⟨List.length_map _ _, ?_, ?_, ?_⟩
    · intro k s0 hk hne
      rw [appendModelMsg_get?, hk, Option.map_some', if_neg hne]
    · intro k s0 hk heq
      rw [appendModelMsg_get?, hk, Option.map_some', if_pos heq]
    · intro hall
      unfold appendModelMsg
      have : sessions.map (fun s =>
          if s.id = aid then { s with messages := s.messages ++ [m] } else s) =
          sessions.map id := by
        apply List.map_congr_left
        intro s hs
        rw [if_neg (hall s hs)]
        rfl
      rw [this, List.map_id]
  · refine ⟨List.length_map _ _, ?_, ?_, ?_⟩
    · intro k s0 hk hne
      rw [appendUserMsg_get?, hk, Option.map_some', if_neg hne]
    · intro k s0 hk heq
      refine ⟨{ s0 with messages := s0.messages ++ [m],
                        title := if s0.messages.length = 0 then text.take 30 else s0.title },
              ?_, rfl, rfl, rfl⟩
      rw [appendUserMsg_get?, hk, Option.map_some', if_pos heq]
    · intro hall
      unfold appendUserMsg
      have : sessions.map (fun s =>
          if s.id = aid then
            { s with messages := s.messages ++ [m],
                     title := if s.messages.length = 0 then text.take 30 else s.title }
          else s) = sessions.map id := by
        apply List.map_congr_left
        intro s hs
        rw [if_neg (hall s hs)]
        rfl
      rw [this, List.map_id]

/-- Witness for C10: in a two-session collection with the second session
active, appending leaves the first session untouched and appends to the
second; with a non-matching id the collection is unchanged. -/
theorem c10_append_frame_witness :
    (appendModelMsg c4WitnessState2.sessions "b"
        (Message.plain "9" Role.model "r" 9)).get? 0 =
      some { id := "a", title := "A", messages := [], createdAt := 3 } ∧
    (appendModelMsg c4WitnessState2.sessions "b"
        (Message.plain "9" Role.model "r" 9)).get? 1 =
      some { c4SessionB with
               messages := c4SessionB.messages ++ [Message.plain "9" Role.model "r" 9] } ∧
    appendModelMsg c4WitnessState2.sessions "zzz"
        (Message.plain "9" Role.model "r" 9) = c4WitnessState2.sessions := by
  have h := c10_append_frame c4WitnessState2.sessions "b"
    (Message.plain "9" Role.model "r" 9) ""
  have h2 := c10_append_frame c4WitnessState2.sessions "zzz"
    (Message.plain "9" Role.model "r" 9) ""
  refine ⟨?_, ?_, ?_⟩
  · exact h.1.2.1 0 _ rfl (by decide)
  · exact h.1.2.2.1 1 c4SessionB rfl rfl
  · exact h2.1.2.2.2 (by decide)

/-! ### C3: silent no-op guard of handleSend -/

/-- **C3.** When the send text is empty after trimming, or there is no
active session, `handleSend` returns the state unchanged for every
possible backend outcome — no session is mutated, no message appended,
and (since the result argument is never inspected) no backend call is
issued. -/
theorem c3_send_noop (st : AppState) (textOverride : Option String)
    (h : jsTrimS (sendText st textOverride) = "" ∨ st.activeSessionId = none) :
    ∀ (now : Nat) (result : Except BackendFailure ChatResult) (now2 : Nat),
      handleSend st textOverride now result now2 = st := by
  intro now result now2
  by_cases hc : jsTrimS (sendText st textOverride) = ""
  · simp [handleSend, hc]
  · have hn : st.activeSessionId = none := by tauto
    simp [handleSend, hc, hn]

/-- Witness for C3: a whitespace-only input is rejected silently whatever
the backend would have answered. -/
theorem c3_send_noop_witness :
    handleSend c3WitnessState none 5 (Except.error { message := some "boom" }) 6 =
      c3WitnessState ∧
    handleSend c3WitnessState none 5
      (Except.ok { text := "reply", grounding := [] }) 6 = c3WitnessState :=
  ⟨c3_send_noop c3WitnessState none (Or.inl (by decide)) 5 _ 6,
   c3_send_noop c3WitnessState none (Or.inl (by decide)) 5 _ 6⟩

/-! ### C2: backend chat failure leaves only the user turn committed -/

theorem surfacedError_ne_empty (fallback : String) (hf : fallback ≠ "")
    (e : BackendFailure) : surfacedError fallback e ≠ "" := by
  rcases e with ⟨msg⟩
  cases msg with
  | none => exact hf
  | some m =>
    simp only [surfacedError]
    by_cases hm : m = ""
    · rw [if_pos hm]; exact hf
    · rw [if_neg hm]; exact hm

/-- **C2.** When the backend chat call fails, the state after the
continuation has: the user message (built from the send text at the
committing instant) appended to the active session and nothing else
changed in the collection — every other session untouched, no model
message appended —, a non-empty surfaced error (the backend's message or
the generic fallback), and the in-flight flag back to `false`. -/
theorem c2_backend_failure (st : AppState) (textOverride : Option String)
    (now now2 : Nat) (e : BackendFailure) (aid : String)
    (haid : st.activeSessionId = some aid)
    (htext : jsTrimS (sendText st textOverride) ≠ "") :
    (handleSend st textOverride now (Except.error e) now2).sessions =
      appendUserMsg st.sessions aid
        (Message.plain (toString now) Role.user (sendText st textOverride) now)
        (sendText st textOverride) ∧
    (∀ k s0, st.sessions.get? k = some s0 → s0.id ≠ aid →
      (handleSend st textOverride now (Except.error e) now2).sessions.get? k = some s0) ∧
    (∀ k s0, st.sessions.get? k = some s0 → s0.id = aid →
      ∃ s1, (handleSend st textOverride now (Except.error e) now2).sessions.get? k
          = some s1 ∧
        s1.messages = s0.messages ++
          [Message.plain (toString now) Role.user (sendText st textOverride) now]) ∧
    (handleSend st textOverride now (Except.error e) now2).errorMsg =
      some (surfacedError chatFallbackMsg e) ∧
    surfacedError chatFallbackMsg e ≠ "" ∧
    (handleSend st textOverride now (Except.error e) now2).isTyping = false := by
  have hsend : handleSend st textOverride now (Except.error e) now2 =
      { st with
          errorMsg := some (surfacedError chatFallbackMsg e),
          sessions := appendUserMsg st.sessions aid
            (Message.plain (toString now) Role.user (sendText st textOverride) now)
            (sendText st textOverride),
          input := "", isTyping := false } := by
    simp [handleSend, htext, haid]
  rw [hsend]
  refine ⟨rfl, ?_, ?_, rfl, surfacedError_ne_empty _ (by decide) e, rfl⟩
  · intro k s0 hk hne
    rw [appendUserMsg_get?, hk, Option.map_some', if_neg hne]
  · intro k s0 hk heq
    refine ⟨{ s0 with
                messages := s0.messages ++
                  [Message.plain (toString now) Role.user (sendText st textOverride) now],
                title := if s0.messages.length = 0
                  then (sendText st textOverride).take 30 else s0.title },
            ?_, rfl⟩
    rw [appendUserMsg_get?, hk, Option.map_some', if_pos heq]

/-- Witness for C2: with one active empty session and input `"hello"`, a
backend failure with no message leaves the user turn committed, surfaces
the generic fallback, and clears the in-flight flag. -/
theorem c2_backend_failure_witness :
    (handleSend c2WitnessState none 5 (Except.error { message := none }) 6).errorMsg =
      some (surfacedError chatFallbackMsg { message := none }) ∧
    surfacedError chatFallbackMsg { message := none } ≠ "" ∧
    (handleSend c2WitnessState none 5 (Except.error { message := none }) 6).isTyping
      = false ∧
    (∃ s1, (handleSend c2WitnessState none 5
        (Except.error { message := none }) 6).sessions.get? 0 = some s1 ∧
      s1.messages = [Message.plain (toString 5) Role.user
        (sendText c2WitnessState none) 5]) := by
  have h := c2_backend_failure c2WitnessState none 5 6 { message := none } "s1"
    rfl (by decide)
  refine ⟨h.2.2.2.1, h.2.2.2.2.1, h.2.2.2.2.2, ?_⟩
  obtain ⟨s1, hs1, hmsg⟩ := h.2.2.1 0 _ rfl rfl
  exact ⟨s1, hs1, hmsg⟩

/-! ### C4: deleting sessions -/

/-- **C4.** Deleting the only session (which is active) results — once
the deferred creation has run — in exactly one session existing: a fresh
one with no messages and title `"New Conversation"`, with the
active-session pointer referencing it; and deleting the active session
while others remain activates the first remaining session. -/
theorem c4_delete_session (st : AppState) (now : Nat) :
    (∀ s, st.sessions = [s] → st.activeSessionId = some s.id →
      deleteSession st s.id now =
        { st with
            sessions := [{ id := toString now, title := "New Conversation",
                           messages := [], createdAt := now }],
            activeSessionId := some (toString now) }) ∧
    (∀ id s1 rest, st.activeSessionId = some id →
      st.sessions.filter (fun s => decide (s.id ≠ id)) = s1 :: rest →
      (deleteSession st id now).sessions = s1 :: rest ∧
      (deleteSession st id now).activeSessionId = some s1.id) := by
  constructor
  · intro s hs haid
    unfold deleteSession
    rw [hs, haid]
    have hfilter : [s].filter (fun s2 => decide (s2.id ≠ s.id)) = [] := by
      simp [List.filter]
    rw [hfilter]
    simp [createNewSession]
  · intro id s1 rest haid hfilter
    unfold deleteSession
    rw [haid, hfilter]
    simp [createNewSession]

/-- Witness for C4: deleting the only session of `c4WitnessState1`
produces exactly one fresh session (active), and deleting the active
first session of the two-session `c4WitnessState2` activates the
remaining one. -/
theorem c4_delete_session_witness :
    deleteSession c4WitnessState1 "only" 7 =
      { c4WitnessState1 with
          sessions := [{ id := toString 7, title := "New Conversation",
                         messages := [], createdAt := 7 }],
          activeSessionId := some (toString 7) } ∧
    (deleteSession c4WitnessState2 "a" 9).sessions = [c4SessionB] ∧
    (deleteSession c4WitnessState2 "a" 9).activeSessionId = some c4SessionB.id := by
  refine ⟨(c4_delete_session c4WitnessState1 7).1 c4OnlySession rfl rfl, ?_, ?_⟩
  · exact ((c4_delete_session c4WitnessState2 9).2 "a" c4SessionB [] rfl (by decide)).1
  · exact ((c4_delete_session c4WitnessState2 9).2 "a" c4SessionB [] rfl (by decide)).2

/-! ### C7: the storage round-trip

The proof plan: `parseStrBody` inverts `escStr` (string bodies),
`parseNum` inverts `natToChars` (numbers), and by mutual induction the
whole parser inverts `stringifyJ` given enough fuel; `jfuel` is bounded
by the serialized length, so the fuel `getSessionsStore` supplies is
always enough; finally the field readback of every encoded session and
message recovers the projected core fields. -/

theorem charToNat_ofNat {n : Nat} (h : n < 55296) : (Char.ofNat n).toNat = n := by
  unfold Char.ofNat
  rw [dif_pos (Or.inl h)]
  rfl

theorem hexVal_hexDigitCh (d : Nat) (h : d < 16) : hexVal (hexDigitCh d) = some d := by
  interval_cases d <;> decide

theorem parseStrBody_quote (rest : List Char) :
    parseStrBody (dquote :: rest) = some ([], rest) := by
  rw [parseStrBody.eq_def]
  dsimp only
  rw [if_pos rfl]

theorem parseStrBody_esc {e ch : Char} (he : e ≠ 'u') (hu : unescCh e = some ch)
    (rest : List Char) :
    parseStrBody (bslash :: e :: rest) =
      (parseStrBody rest).map (fun pr => (ch :: pr.1, pr.2)) := by
  rw [parseStrBody.eq_def]
  dsimp only
  rw [if_neg (by decide), if_pos rfl, if_neg he, hu]
  cases parseStrBody rest with
  | none => rfl
  | some pr => rfl

theorem parseStrBody_u {a b c2 d : Char} {va vb vc vd : Nat}
    (ha : hexVal a = some va) (hb : hexVal b = some vb)
    (hc : hexVal c2 = some vc) (hd : hexVal d = some vd) (rest : List Char) :
    parseStrBody (bslash :: 'u' :: a :: b :: c2 :: d :: rest) =
      (parseStrBody rest).map (fun pr =>
        (Char.ofNat (((va * 16 + vb) * 16 + vc) * 16 + vd) :: pr.1, pr.2)) := by
  rw [parseStrBody.eq_def]
  dsimp only
  rw [if_neg (by decide), if_pos rfl, if_pos rfl, ha, hb, hc, hd]
  cases parseStrBody rest with
  | none => rfl
  | some pr => rfl

theorem parseStrBody_plain {c : Char} (h1 : c ≠ dquote) (h2 : c ≠ bslash)
    (rest : List Char) :
    parseStrBody (c :: rest) =
      (parseStrBody rest).map (fun pr => (c :: pr.1, pr.2)) := by
  rw [parseStrBody.eq_def]
  dsimp only
  rw [if_neg h1, if_neg h2]
  cases parseStrBody rest with
  | none => rfl
  | some pr => rfl

theorem parseStrBody_escape :
    ∀ (s : List Char) (rest : List Char),
      parseStrBody (escStr s ++ dquote :: rest) = some (s, rest) := by
  intro s
  induction s with
  | nil =>
    intro rest
    exact parseStrBody_quote rest
  | cons c t ih =>
    intro rest
    have hes : escStr (c :: t) ++ dquote :: rest =
        escChar c ++ (escStr t ++ dquote :: rest) := by
      simp [escStr, List.append_assoc]
    rw [hes]
    unfold escChar
    by_cases h1 : c = dquote
    · subst h1
      rw [if_pos rfl]
      show parseStrBody (bslash :: dquote :: (escStr t ++ dquote :: rest)) = _
      rw [parseStrBody_esc (by decide) (by rw [unescCh, if_pos rfl]) _, ih rest]
      rfl
    · rw [if_neg h1]
      by_cases h2 : c = bslash
      · subst h2
        rw [if_pos rfl]
        show parseStrBody (bslash :: bslash :: (escStr t ++ dquote :: rest)) = _
        rw [parseStrBody_esc (by decide)
          (by rw [unescCh, if_neg (by decide), if_pos rfl]) _, ih rest]
        rfl
      · rw [if_neg h2]
        by_cases h3 : c = Char.ofNat 8
        · subst h3
          rw [if_pos rfl]
          show parseStrBody (bslash :: 'b' :: (escStr t ++ dquote :: rest)) = _
          rw [@parseStrBody_esc 'b' (Char.ofNat 8) (by decide) (by decide) _, ih rest]
          rfl
        · rw [if_neg h3]
          by_cases h4 : c = Char.ofNat 9
          · subst h4
            rw [if_pos rfl]
            show parseStrBody (bslash :: 't' :: (escStr t ++ dquote :: rest)) = _
            rw [@parseStrBody_esc 't' (Char.ofNat 9) (by decide) (by decide) _, ih rest]
            rfl
          · rw [if_neg h4]
            by_cases h5 : c = Char.ofNat 10
            · subst h5
              rw [if_pos rfl]
              show parseStrBody (bslash :: 'n' :: (escStr t ++ dquote :: rest)) = _
              rw [@parseStrBody_esc 'n' (Char.ofNat 10) (by decide) (by decide) _, ih rest]
              rfl
            · rw [if_neg h5]
              by_cases h6 : c = Char.ofNat 12
              · subst h6
                rw [if_pos rfl]
                show parseStrBody (bslash :: 'f' :: (escStr t ++ dquote :: rest)) = _
                rw [@parseStrBody_esc 'f' (Char.ofNat 12) (by decide) (by decide) _, ih rest]
                rfl
              · rw [if_neg h6]
                by_cases h7 : c = Char.ofNat 13
                · subst h7
                  rw [if_pos rfl]
                  show parseStrBody (bslash :: 'r' :: (escStr t ++ dquote :: rest)) = _
                  rw [@parseStrBody_esc 'r' (Char.ofNat 13) (by decide) (by decide) _, ih rest]
                  rfl
                · rw [if_neg h7]
                  by_cases h8 : c.toNat < 32
                  · rw [if_pos h8]
                    have hdiv : c.toNat / 16 < 16 := by omega
                    have hmod : c.toNat % 16 < 16 := Nat.mod_lt _ (by norm_num)
                    show parseStrBody (bslash :: 'u' :: '0' :: '0' ::
                      hexDigitCh (c.toNat / 16) :: hexDigitCh (c.toNat % 16) ::
                      (escStr t ++ dquote :: rest)) = _
                    rw [@parseStrBody_u '0' '0' (hexDigitCh (c.toNat / 16))
                      (hexDigitCh (c.toNat % 16)) 0 0 (c.toNat / 16) (c.toNat % 16)
                      (by decide) (by decide)
                      (hexVal_hexDigitCh _ hdiv) (hexVal_hexDigitCh _ hmod) _, ih rest]
                    have harith : ((0 * 16 + 0) * 16 + c.toNat / 16) * 16 + c.toNat % 16
                        = c.toNat := by omega
                    rw [harith, Char.ofNat_toNat]
                    rfl
                  · rw [if_neg h8]
                    show parseStrBody (c :: (escStr t ++ dquote :: rest)) = _
                    rw [parseStrBody_plain h1 h2 _, ih rest]
                    rfl

theorem digitVal_digitCh {d : Nat} (h : d < 10) : digitVal (digitCh d) = d := by
  unfold digitVal digitCh
  rw [charToNat_ofNat (by omega)]
  omega

theorem isDigitCh_digitCh {d : Nat} (h : d < 10) : isDigitCh (digitCh d) = true := by
  unfold isDigitCh digitCh
  rw [charToNat_ofNat (by omega)]
  simp only [Bool.and_eq_true, decide_eq_true_eq]
  omega

theorem natToChars_all_digits (n : Nat) :
    ∀ c ∈ natToChars n, isDigitCh c = true := by
  unfold natToChars
  by_cases h : n = 0
  · rw [if_pos h]
    intro c hc
    simp only [List.mem_singleton] at hc
    subst hc
    exact isDigitCh_digitCh (by norm_num)
  · rw [if_neg h]
    intro c hc
    rw [List.mem_reverse, List.mem_map] at hc
    obtain ⟨d, hd, rfl⟩ := hc
    exact isDigitCh_digitCh (Nat.digits_lt_base (by norm_num) hd)

theorem natToChars_ne_nil (n : Nat) : natToChars n ≠ [] := by
  unfold natToChars
  by_cases h : n = 0
  · rw [if_pos h]; simp
  · rw [if_neg h]
    intro hc
    rw [List.reverse_eq_nil_iff, List.map_eq_nil_iff] at hc
    exact (Nat.digits_ne_nil_iff_ne_zero.mpr h) hc

theorem charsToNat_natToChars (n : Nat) :
    Nat.ofDigits 10 (((natToChars n).map digitVal).reverse) = n := by
  unfold natToChars
  by_cases h : n = 0
  · rw [if_pos h]
    subst h
    rw [show ([digitCh 0].map digitVal) = [0] from by
      simp [digitVal_digitCh (show (0:Nat) < 10 from by norm_num)]]
    simp [Nat.ofDigits]
  · rw [if_neg h]
    rw [List.map_reverse, List.reverse_reverse, List.map_map]
    have hsame : (Nat.digits 10 n).map (digitVal ∘ digitCh) = Nat.digits 10 n := by
      have : (Nat.digits 10 n).map (digitVal ∘ digitCh) =
          (Nat.digits 10 n).map id := by
        apply List.map_congr_left
        intro d hd
        exact digitVal_digitCh (Nat.digits_lt_base (by norm_num) hd)
      rw [this, List.map_id]
    rw [hsame, Nat.ofDigits_digits]

theorem takeWhile_digits_append (l r : List Char)
    (hl : ∀ c ∈ l, isDigitCh c = true) (hr : hdOk r = true) :
    (l ++ r).takeWhile isDigitCh = l ∧ (l ++ r).dropWhile isDigitCh = r := by
  induction l with
  | nil =>
    simp only [List.nil_append]
    cases r with
    | nil => exact ⟨rfl, rfl⟩
    | cons c rr =>
      unfold hdOk at hr
      rw [Bool.not_eq_true'] at hr
      rw [List.takeWhile_cons, List.dropWhile_cons]
      simp [hr]
  | cons a t ih =>
    have ha := hl a (List.mem_cons_self _ _)
    have iht := ih (fun c hc => hl c (List.mem_cons_of_mem _ hc))
    simp only [List.cons_append, List.takeWhile_cons, List.dropWhile_cons, ha]
    simp [iht.1, iht.2]

theorem parseNum_natToChars (n : Nat) (rest : List Char) (hrest : hdOk rest = true) :
    parseNum (natToChars n ++ rest) = some (n, rest) := by
  obtain ⟨htake, hdrop⟩ := takeWhile_digits_append (natToChars n) rest
    (natToChars_all_digits n) hrest
  unfold parseNum
  rw [htake, hdrop]
  rw [if_neg (by simpa using natToChars_ne_nil n)]
  rw [charsToNat_natToChars]

theorem natToChars_head (n : Nat) :
    ∃ c t, natToChars n = c :: t ∧ isDigitCh c = true := by
  cases hn : natToChars n with
  | nil => exact absurd hn (natToChars_ne_nil n)
  | cons c t =>
    have hc : c ∈ natToChars n := by rw [hn]; exact List.mem_cons_self _ _
    exact ⟨c, t, rfl, natToChars_all_digits n c hc⟩

theorem digit_ne_special {c : Char} (h : isDigitCh c = true) :
    c ≠ dquote ∧ c ≠ '[' ∧ c ≠ lbrace ∧ c ≠ ']' ∧ c ≠ ',' ∧ c ≠ rbrace ∧ c ≠ ':' := by
  refine ⟨?_, ?_, ?_, ?_, ?_, ?_, ?_⟩ <;> rintro rfl <;> revert h <;> decide

theorem stringifyJ_head (v : JVal) :
    ∃ c t, stringifyJ v = c :: t ∧ startsJVal c = true := by
  cases v with
  | jstr s => exact ⟨dquote, escStr s ++ [dquote], by simp [stringifyJ], by decide⟩
  | jnum n =>
    obtain ⟨c, t, hct, hd⟩ := natToChars_head n
    refine ⟨c, t, by simp [stringifyJ, hct], ?_⟩
    unfold startsJVal
    rw [hd]
    simp
  | jarr l => exact ⟨'[', stringifyElems l ++ [']'], by simp [stringifyJ], by decide⟩
  | jobj l => exact ⟨lbrace, stringifyFields l ++ [rbrace], by simp [stringifyJ], by decide⟩

theorem startsJVal_ne {c : Char} (h : startsJVal c = true) :
    c ≠ ']' ∧ c ≠ rbrace ∧ c ≠ ',' ∧ c ≠ ':' := by
  unfold startsJVal at h
  have h2 : ((c = dquote ∨ c = '[') ∨ c = lbrace) ∨ isDigitCh c = true := by
    simpa [Bool.or_eq_true, decide_eq_true_eq] using h
  rcases h2 with ((h1 | h1) | h1) | h1
  · subst h1; exact ⟨by decide, by decide, by decide, by decide⟩
  · subst h1; exact ⟨by decide, by decide, by decide, by decide⟩
  · subst h1; exact ⟨by decide, by decide, by decide, by decide⟩
  · obtain ⟨-, -, -, h4, h5, h6, h7⟩ := digit_ne_special h1
    exact ⟨h4, h6, h5, h7⟩

theorem hdOk_cons (c : Char) (t : List Char) : hdOk (c :: t) = !isDigitCh c := rfl

theorem jfuel_pos (v : JVal) : 1 ≤ jfuel v := by
  cases v <;> simp [jfuel]

theorem parseJVal_succ (fuel : Nat) (c : Char) (rest : List Char) :
    parseJVal (fuel + 1) (c :: rest) =
      (if c = dquote then
        match parseStrBody rest with
        | none => none
        | some (str, r) => some (JVal.jstr str, r)
      else if c = '[' then
        match rest with
        | [] => none
        | c2 :: r2 =>
          if c2 = ']' then some (JVal.jarr [], r2)
          else
            match parseElems fuel rest with
            | none => none
            | some (vs, r3) => some (JVal.jarr vs, r3)
      else if c = lbrace then
        match rest with
        | [] => none
        | c2 :: r2 =>
          if c2 = rbrace then some (JVal.jobj [], r2)
          else
            match parseFields fuel rest with
            | none => none
            | some (fs, r3) => some (JVal.jobj fs, r3)
      else
        match parseNum (c :: rest) with
        | none => none
        | some (n, r) => some (JVal.jnum n, r)) := rfl

theorem parseElems_succ (fuel : Nat) (s : List Char) :
    parseElems (fuel + 1) s =
      (match parseJVal fuel s with
       | none => none
       | some (v, r) =>
         match r with
         | [] => none
         | c :: r2 =>
           if c = ',' then
             match parseElems fuel r2 with
             | none => none
             | some (vs, r3) => some (v :: vs, r3)
           else if c = ']' then some ([v], r2)
           else none) := rfl

theorem parseFields_succ (fuel : Nat) (s : List Char) :
    parseFields (fuel + 1) s =
      (match s with
       | [] => none
       | c :: rest =>
         if c = dquote then
           match parseStrBody rest with
           | none => none
           | some (k, r) =>
             match r with
             | [] => none
             | c2 :: r2 =>
               if c2 = ':' then
                 match parseJVal fuel r2 with
                 | none => none
                 | some (v, r3) =>
                   match r3 with
                   | [] => none
                   | c3 :: r4 =>
                     if c3 = ',' then
                       match parseFields fuel r4 with
                       | none => none
                       | some (fs, r5) => some ((k, v) :: fs, r5)
                     else if c3 = rbrace then some ([(k, v)], r4)
                     else none
               else none
         else none) := rfl

mutual
theorem parse_stringifyJ (v : JVal) (fuel : Nat) (rest : List Char)
    (hfuel : jfuel v ≤ fuel) (hrest : hdOk rest = true) :
    parseJVal fuel (stringifyJ v ++ rest) = some (v, rest) := by
  cases fuel with
  | zero =>
    have := jfuel_pos v
    omega
  | succ f0 =>
    cases v with
    | jstr s =>
      have hs : stringifyJ (JVal.jstr s) ++ rest =
          dquote :: (escStr s ++ dquote :: rest) := by
        simp [stringifyJ, List.append_assoc]
      rw [hs, parseJVal_succ]
      try dsimp only
      rw [if_pos rfl, parseStrBody_escape s rest]
    | jnum n =>
      obtain ⟨c, t, hct, hd⟩ := natToChars_head n
      obtain ⟨hne1, hne2, hne3, -, -, -, -⟩ := digit_ne_special hd
      have hs : stringifyJ (JVal.jnum n) ++ rest = c :: (t ++ rest) := by
        simp [stringifyJ, hct]
      rw [hs, parseJVal_succ]
      try dsimp only
      rw [if_neg hne1, if_neg hne2, if_neg hne3]
      rw [show c :: (t ++ rest) = natToChars n ++ rest from by rw [hct]; rfl]
      rw [parseNum_natToChars n rest hrest]
    | jarr l =>
      cases l with
      | nil =>
        have hs : stringifyJ (JVal.jarr []) ++ rest = '[' :: ']' :: rest := by
          simp [stringifyJ, stringifyElems]
        rw [hs, parseJVal_succ]
        try dsimp only
        rw [if_neg (by decide), if_pos rfl, if_pos rfl]
      | cons v0 l0 =>
        obtain ⟨c0, t0, hct0, hstart0⟩ := stringifyJ_head v0
        have helems : ∃ t1, stringifyElems (v0 :: l0) = c0 :: t1 := by
          cases l0 with
          | nil => exact ⟨t0, by simp [stringifyElems, hct0]⟩
          | cons v1 l1 =>
            exact ⟨t0 ++ ',' :: stringifyElems (v1 :: l1),
              by simp [stringifyElems, hct0]⟩
        obtain ⟨t1, ht1⟩ := helems
        have hs : stringifyJ (JVal.jarr (v0 :: l0)) ++ rest =
            '[' :: (c0 :: (t1 ++ ']' :: rest)) := by
          simp [stringifyJ, ht1, List.append_assoc]
        rw [hs, parseJVal_succ]
        try dsimp only
        obtain ⟨hne_rb, -, -, -⟩ := startsJVal_ne hstart0
        rw [if_neg (by decide), if_pos rfl, if_neg hne_rb]
        rw [show c0 :: (t1 ++ ']' :: rest) = stringifyElems (v0 :: l0) ++ ']' :: rest
          from by rw [ht1]; rfl]
        rw [parse_stringifyElems (v0 :: l0) f0 rest (by simp)
          (by simp [jfuel] at hfuel; omega)]
    | jobj l =>
      cases l with
      | nil =>
        have hs : stringifyJ (JVal.jobj []) ++ rest = lbrace :: rbrace :: rest := by
          simp [stringifyJ, stringifyFields]
        rw [hs, parseJVal_succ]
        try dsimp only
        rw [if_neg (by decide), if_neg (by decide), if_pos rfl, if_pos rfl]
      | cons kv0 l0 =>
        obtain ⟨k0, v0⟩ := kv0
        have hfields : ∃ t1, stringifyFields ((k0, v0) :: l0) = dquote :: t1 := by
          cases l0 with
          | nil => exact ⟨escStr k0 ++ dquote :: ':' :: stringifyJ v0,
              by simp [stringifyFields]⟩
          | cons kv1 l1 =>
            exact ⟨(escStr k0 ++ dquote :: ':' :: stringifyJ v0) ++
              ',' :: stringifyFields (kv1 :: l1), by simp [stringifyFields]⟩
        obtain ⟨t1, ht1⟩ := hfields
        have hs : stringifyJ (JVal.jobj ((k0, v0) :: l0)) ++ rest =
            lbrace :: (dquote :: (t1 ++ rbrace :: rest)) := by
          simp [stringifyJ, ht1, List.append_assoc]
        rw [hs, parseJVal_succ]
        try dsimp only
        rw [if_neg (by decide), if_neg (by decide), if_pos rfl, if_neg (by decide)]
        rw [show dquote :: (t1 ++ rbrace :: rest) =
            stringifyFields ((k0, v0) :: l0) ++ rbrace :: rest
          from by rw [ht1]; rfl]
        rw [parse_stringifyFields ((k0, v0) :: l0) f0 rest (by simp)
          (by simp [jfuel] at hfuel; omega)]

theorem parse_stringifyElems (l : List JVal) (fuel : Nat) (rest : List Char)
    (hne : l ≠ []) (hfuel : jfuelElems l ≤ fuel) :
    parseElems fuel (stringifyElems l ++ ']' :: rest) = some (l, rest) := by
  cases l with
  | nil => exact absurd rfl hne
  | cons v0 l0 =>
    cases fuel with
    | zero => simp [jfuelElems] at hfuel
    | succ f0 =>
      cases l0 with
      | nil =>
        rw [show stringifyElems [v0] = stringifyJ v0 from by simp [stringifyElems]]
        rw [parseElems_succ]
        try dsimp only
        rw [parse_stringifyJ v0 f0 (']' :: rest)
          (by simp [jfuelElems] at hfuel; omega) (by rw [hdOk_cons]; decide)]
        try dsimp only
        rw [if_neg (by decide), if_pos rfl]
      | cons v1 l1 =>
        rw [show stringifyElems (v0 :: v1 :: l1) ++ ']' :: rest =
            stringifyJ v0 ++ (',' :: (stringifyElems (v1 :: l1) ++ ']' :: rest))
          from by simp [stringifyElems, List.append_assoc]]
        rw [parseElems_succ]
        try dsimp only
        rw [parse_stringifyJ v0 f0 _
          (by simp [jfuelElems] at hfuel; omega) (by rw [hdOk_cons]; decide)]
        try dsimp only
        rw [if_pos rfl]
        rw [parse_stringifyElems (v1 :: l1) f0 rest (by simp)
          (by simp only [jfuelElems] at hfuel ⊢; omega)]

theorem parse_stringifyFields (l : List (List Char × JVal)) (fuel : Nat)
    (rest : List Char) (hne : l ≠ []) (hfuel : jfuelFields l ≤ fuel) :
    parseFields fuel (stringifyFields l ++ rbrace :: rest) = some (l, rest) := by
  cases l with
  | nil => exact absurd rfl hne
  | cons kv0 l0 =>
    obtain ⟨k0, v0⟩ := kv0
    cases fuel with
    | zero => simp [jfuelFields] at hfuel
    | succ f0 =>
      cases l0 with
      | nil =>
        rw [show stringifyFields [(k0, v0)] ++ rbrace :: rest =
            dquote :: (escStr k0 ++ dquote :: (':' :: (stringifyJ v0 ++ rbrace :: rest)))
          from by simp [stringifyFields, List.append_assoc]]
        rw [parseFields_succ]
        try dsimp only
        rw [if_pos rfl, parseStrBody_escape k0 _]
        try dsimp only
        rw [if_pos rfl]
        rw [parse_stringifyJ v0 f0 (rbrace :: rest)
          (by simp [jfuelFields] at hfuel; omega) (by rw [hdOk_cons]; decide)]
        try dsimp only
        rw [if_neg (by decide), if_pos rfl]
      | cons kv1 l1 =>
        rw [show stringifyFields ((k0, v0) :: kv1 :: l1) ++ rbrace :: rest =
            dquote :: (escStr k0 ++ dquote ::
              (':' :: (stringifyJ v0 ++
                (',' :: (stringifyFields (kv1 :: l1) ++ rbrace :: rest)))))
          from by simp [stringifyFields, List.append_assoc]]
        rw [parseFields_succ]
        try dsimp only
        rw [if_pos rfl, parseStrBody_escape k0 _]
        try dsimp only
        rw [if_pos rfl]
        rw [parse_stringifyJ v0 f0 _
          (by simp [jfuelFields] at hfuel; omega) (by rw [hdOk_cons]; decide)]
        try dsimp only
        rw [if_pos rfl]
        rw [parse_stringifyFields (kv1 :: l1) f0 rest (by simp)
          (by simp only [jfuelFields] at hfuel ⊢; omega)]
end

mutual
theorem jfuel_le_len (v : JVal) : jfuel v ≤ (stringifyJ v).length := by
  cases v with
  | jstr s => simp [jfuel, stringifyJ]
  | jnum n =>
    have hl : 1 ≤ (natToChars n).length :=
      List.length_pos.mpr (natToChars_ne_nil n)
    simp only [jfuel, stringifyJ]
    omega
  | jarr l =>
    have h := jfuelElems_le_len l
    simp only [jfuel, stringifyJ, List.length_cons, List.length_append,
      List.length_singleton]
    omega
  | jobj l =>
    have h := jfuelFields_le_len l
    simp only [jfuel, stringifyJ, List.length_cons, List.length_append,
      List.length_singleton]
    omega

theorem jfuelElems_le_len (l : List JVal) :
    jfuelElems l ≤ (stringifyElems l).length + 1 := by
  cases l with
  | nil => simp [jfuelElems, stringifyElems]
  | cons v l0 =>
    cases l0 with
    | nil =>
      have h := jfuel_le_len v
      simp only [jfuelElems, stringifyElems]
      omega
    | cons v1 l1 =>
      have h := jfuel_le_len v
      have h2 := jfuelElems_le_len (v1 :: l1)
      simp only [jfuelElems] at h2 ⊢
      simp only [stringifyElems, List.length_append, List.length_cons] at h2 ⊢
      omega

theorem jfuelFields_le_len (l : List (List Char × JVal)) :
    jfuelFields l ≤ (stringifyFields l).length + 1 := by
  cases l with
  | nil => simp [jfuelFields, stringifyFields]
  | cons kv l0 =>
    obtain ⟨k, v⟩ := kv
    cases l0 with
    | nil =>
      have h := jfuel_le_len v
      simp only [jfuelFields, stringifyFields, List.length_cons, List.length_append]
      omega
    | cons kv1 l1 =>
      have h := jfuel_le_len v
      have h2 := jfuelFields_le_len (kv1 :: l1)
      simp only [jfuelFields] at h2 ⊢
      simp only [stringifyFields, List.length_append, List.length_cons] at h2 ⊢
      omega
end

theorem decodeMessageCore_encode (m : Message) :
    decodeMessageCore (encodeMessage m) = some (projectMessage m) := by
  unfold decodeMessageCore encodeMessage
  simp only [List.cons_append, List.nil_append]
  rw [lookupField, if_pos rfl]
  rw [lookupField, if_neg (by decide), lookupField, if_pos rfl]
  rw [lookupField, if_neg (by decide), lookupField, if_neg (by decide),
    lookupField, if_pos rfl]
  rw [lookupField, if_neg (by decide), lookupField, if_neg (by decide),
    lookupField, if_neg (by decide), lookupField, if_pos rfl]
  cases m with
  | mk id role text timestamp audioUrl imageUrl psychAnalysis language groundingSources =>
    cases role <;> rfl

theorem decodeList_map_encodeMessage (ms : List Message) :
    decodeList decodeMessageCore (ms.map encodeMessage) =
      some (ms.map projectMessage) := by
  induction ms with
  | nil => rfl
  | cons m t ih =>
    simp only [List.map_cons, decodeList, decodeMessageCore_encode m, ih]

theorem decodeSessionCore_encode (s : ChatSession) :
    decodeSessionCore (encodeSession s) = some (projectSession s) := by
  unfold decodeSessionCore encodeSession
  dsimp only
  rw [lookupField, if_pos rfl]
  rw [lookupField, if_neg (by decide), lookupField, if_neg (by decide),
    lookupField, if_pos rfl]
  dsimp only
  rw [decodeList_map_encodeMessage]
  rfl

theorem decodeList_map_encodeSession (l : List ChatSession) :
    decodeList decodeSessionCore (l.map encodeSession) =
      some (l.map projectSession) := by
  induction l with
  | nil => rfl
  | cons s t ih =>
    simp only [List.map_cons, decodeList, decodeSessionCore_encode s, ih]

theorem decodeSessionsCore_encode (l : List ChatSession) :
    decodeSessionsCore (encodeSessions l) = some (l.map projectSession) := by
  unfold decodeSessionsCore encodeSessions
  dsimp only
  rw [decodeList_map_encodeSession]

theorem getItem_setItem (store : Store) (k v : List Char) :
    getItem (setItem store k v) k = some v := by
  unfold setItem getItem
  rw [if_pos rfl]

/-- **C7.** Round-trip of the persistent store: saving any session
collection (serialize with `JSON.stringify`, store under the sessions
key) and then loading it (read the key, `JSON.parse`, read the fields
back) yields a collection equal to the one saved, field-wise over each
session's `id` and each message's `id`, `role`, `text` and `timestamp`
(the `projectSession` view). -/
theorem c7_sessions_round_trip (store : Store) (sessions : List ChatSession) :
    getSessionsStore (saveSessionsStore store sessions) =
      sessions.map projectSession := by
  unfold getSessionsStore saveSessionsStore
  rw [getItem_setItem]
  have hfuel : jfuel (encodeSessions sessions) ≤
      (stringifyJ (encodeSessions sessions)).length + 1 := by
    have h := jfuel_le_len (encodeSessions sessions)
    omega
  have hparse := parse_stringifyJ (encodeSessions sessions)
    ((stringifyJ (encodeSessions sessions)).length + 1) [] hfuel rfl
  rw [List.append_nil] at hparse
  dsimp only
  rw [hparse]
  simp [decodeSessionsCore_encode]

end Maddi